import Mathlib

set_option linter.unusedVariables false

/-!
Verification development for the Break Scheduling Engine of the BreakTimer fork.

The definitions below are a shallow embedding of the engine's source:

* `generateSequentialOrder` / `sanitizeSequentialOrder` embed
  `src/app/main/lib/break-rotation.ts`;
* `determineNextSequential` / `determineNextBreakMessage` embed the message
  selection pipeline of the break timer module (`determineNextBreakMessage`);
* the `BreakTimerState` operations (`pauseActiveBreak`, `resumeActiveBreak`,
  `adjustActiveBreakDuration`, `beginBreakCountdown`, `skipCurrentBreakMessage`,
  `goToPreviousBreakMessage`, `postponeBreak`, `scheduleNextBreak`,
  `completeBreakTracking`, `checkInWorkingHours`, ...) embed the break timer
  module's exported operations over its module-level mutable state.

Modelling conventions:

* JavaScript numbers that the engine stores or receives are modelled as `Int`
  (all values the engine computes with are integers); where `NaN` is
  observable, the type `JsNum := Option Int` is used with `none` playing the
  role of `NaN` (non-integer finite doubles do not occur in the modelled
  values, apart from stored settings fields that the sanitizer rejects).
* `Math.random()` draws are modelled by an oracle function; a draw used to
  pick an index in `[0, i]` is taken modulo `i + 1`, so every outcome of the
  real draws is represented by some oracle.
* Wall-clock timestamps (`Date.now()`, moment instants) are `Int`
  milliseconds.
* Fire-and-forget side effects (log lines, notifications, IPC broadcasts,
  tray rebuilds, the best-effort persistence of rotation state) are not part
  of the state; request/response payloads are returned as values.
-/

namespace BreakTimer

/-! ## Definitions -/

/-- JavaScript number restricted to the values observable in the engine:
`none` models `NaN`, `some k` a finite integer value. -/
abbrev JsNum := Option Int

/-- JavaScript truthiness of a number (`0` and `NaN` are falsy). -/
def jsTruthyNum : JsNum → Bool
  | none => false
  | some k => decide (k ≠ 0)

/-- In-place swap of two positions of an array, as performed by
`[indexes[i], indexes[j]] = [indexes[j], indexes[i]]`; out-of-range positions
leave the list unchanged (the source only swaps in-range positions). -/
def listSwap (l : List α) (i j : Nat) : List α :=
  match l.get? i, l.get? j with
  | some a, some b => (l.set i b).set j a
  | _, _ => l

/-- The Fisher–Yates loop of `generateSequentialOrder`: counter `i` runs from
`indexes.length - 1` down to `1`, swapping position `i` with a randomly drawn
position `j ∈ [0, i]` (the draw `Math.floor(Math.random() * (i + 1))` is
modelled as `rand i % (i + 1)`). -/
def fyLoop (rand : Nat → Nat) : Nat → List Nat → List Nat
  | 0, l => l
  | i + 1, l => fyLoop rand i (listSwap l (i + 1) (rand (i + 1) % (i + 2)))

/-- `generateSequentialOrder(length)` from `src/app/main/lib/break-rotation.ts`:
starts from `[0, 1, ..., length - 1]` and shuffles with Fisher–Yates. -/
def generateSequentialOrder (rand : Nat → Nat) (length : Nat) : List Nat :=
  fyLoop rand (length - 1) (List.range length)

/-- Numeric value used once an order entry passed the sanitizer's integer and
range checks (the checks guarantee `some k` with `0 ≤ k`). -/
def jsNumToNat : JsNum → Nat
  | none => 0
  | some k => k.toNat

/-- The element loop of `sanitizeSequentialOrder`: every entry must be an
integer in `[0, length)` not seen before (`seen` is the `Set` accumulator).
`none` (`NaN`, which `Number.isInteger` rejects) fails the check. -/
def sanitizeSequentialOrderLoop (length : Nat) : List JsNum → List Int → Bool
  | [], _ => true
  | none :: _, _ => false
  | some value :: rest, seen =>
    if 0 ≤ value ∧ value < (length : Int) ∧ value ∉ seen then
      sanitizeSequentialOrderLoop length rest (value :: seen)
    else
      false

/-- `sanitizeSequentialOrder(order, length)`: `none` unless `order` is an array
of length exactly `length` containing each integer of `[0, length)` exactly
once; on success returns the (copied) order. A stored field that is not an
array is `none`; stored non-integer doubles, which the loop would also
reject, are outside the modelled value space. -/
def sanitizeSequentialOrder (order : Option (List JsNum)) (length : Nat) :
    Option (List Nat) :=
  match order with
  | none => none
  | some l =>
    if l.length = length ∧ sanitizeSequentialOrderLoop length l [] = true then
      some (l.map jsNumToNat)
    else
      none

/-- A freshly produced order, as persisted back into the settings store
(`number[]` whose entries are the natural numbers of the order). -/
def natOrderToJs (o : List Nat) : List JsNum :=
  o.map (fun x => some ((x : Nat) : Int))

/-- `((idxRaw % totalMessages) + totalMessages) % totalMessages` with the
JavaScript `%` operator (truncated remainder, `Int.tmod`); `NaN` propagates
through arithmetic. -/
def jsNormalizeIndex (idxRaw : JsNum) (totalMessages : Nat) : JsNum :=
  match idxRaw with
  | none => none
  | some k =>
    some (Int.tmod (Int.tmod k totalMessages + totalMessages) totalMessages)

/-- JavaScript array indexing `l[idx]`: `undefined` (here `none`) for `NaN`
or out-of-range subscripts. -/
def jsListLookup (l : List Nat) (idx : JsNum) : Option Nat :=
  match idx with
  | none => none
  | some k => if 0 ≤ k then l.get? k.toNat else none

/-- JavaScript comparison `idx >= n`; any comparison with `NaN` is false. -/
def jsGeNat : JsNum → Nat → Bool
  | none, _ => false
  | some k, n => decide ((n : Int) ≤ k)

/-- Outcome of one sequential-mode selection: the selected pool index, and
the cursor and order to be persisted for the next call. -/
structure SequentialSelection where
  messageIndex : Nat
  nextIndex : JsNum
  order : List Nat
deriving DecidableEq, Repr

/-- The sequential branch of `determineNextBreakMessage` (break timer module):
normalize the stored cursor with the double-modulo, sanitize the stored order
(regenerating on failure), select `order[currentIndex] ?? 0`, advance the
cursor, and on wrap (`nextIndex >= totalMessages`) reset the cursor to `0`
and regenerate a fresh order. `rand 0` is the random stream of a
sanitize-failure regeneration, `rand 1` the stream of a wrap regeneration. -/
def determineNextSequential (rand : Nat → Nat → Nat) (totalMessages : Nat)
    (idxRaw : JsNum) (storedOrder : Option (List JsNum)) : SequentialSelection :=
  let currentIndex := jsNormalizeIndex idxRaw totalMessages
  let order :=
    match sanitizeSequentialOrder storedOrder totalMessages with
    | some o => o
    | none => generateSequentialOrder (rand 0) totalMessages
  let messageIndex := (jsListLookup order currentIndex).getD 0
  let nextIndex : JsNum := currentIndex.map (fun c => c + 1)
  if jsGeNat nextIndex totalMessages then
    { messageIndex := messageIndex, nextIndex := some 0,
      order := generateSequentialOrder (rand 1) totalMessages }
  else
    { messageIndex := messageIndex, nextIndex := nextIndex, order := order }

/-- One `selectNext` call followed by persisting the returned rotation state:
the next call reads back the persisted cursor and order. -/
def seqStep (rand : Nat → Nat → Nat) (n : Nat)
    (st : JsNum × Option (List JsNum)) : Nat × (JsNum × Option (List JsNum)) :=
  let sel := determineNextSequential rand n st.1 st.2
  (sel.messageIndex, (sel.nextIndex, some (natOrderToJs sel.order)))

/-- Pool indices selected by `k` consecutive `selectNext` calls, each call
threading the persisted rotation state into the next; call `i` uses the
random streams `rands i`. -/
def seqTrace (rands : Nat → Nat → Nat → Nat) (n : Nat) :
    Nat → JsNum × Option (List JsNum) → List Nat
  | 0, _ => []
  | k + 1, st =>
    (seqStep (rands 0) n st).1 ::
      seqTrace (fun j => rands (j + 1)) n k (seqStep (rands 0) n st).2

/-- Rotation state stored after `k` consecutive `selectNext` calls. -/
def seqRun (rands : Nat → Nat → Nat → Nat) (n : Nat) :
    Nat → JsNum × Option (List JsNum) → JsNum × Option (List JsNum)
  | 0, st => st
  | k + 1, st => seqRun (fun j => rands (j + 1)) n k (seqStep (rands 0) n st).2

/-- Image attachment carried by a break message (opaque payload; only its
identity matters to the engine). -/
structure BreakMessageAttachment where
  id : String
deriving DecidableEq, Repr

/-- `BreakMessageContent`: message text, sanitized attachments, optional
per-message duration override in seconds. -/
structure BreakMessageContent where
  text : String
  attachments : List BreakMessageAttachment
  durationSeconds : Option Int
deriving DecidableEq, Repr

/-- `BreakMessageInput`: the legacy union accepted by `normalizeBreakMessage`
(`null`/`undefined`, a bare string, or a structured message whose attachments
are modelled as already sanitized). -/
inductive BreakMessageInput
  | nullish
  | str (text : String)
  | content (value : BreakMessageContent)
deriving DecidableEq, Repr

/-- `normalizeBreakMessage` (types/settings module): nullish input becomes the
empty message, a string becomes `{text, attachments: []}`, and a structured
input keeps its text and attachments. The returned object has only `text` and
`attachments` fields, so a `durationSeconds` on the input is dropped. -/
def normalizeBreakMessage : BreakMessageInput → BreakMessageContent
  | .nullish => { text := "", attachments := [], durationSeconds := none }
  | .str s => { text := s, attachments := [], durationSeconds := none }
  | .content v =>
    { text := v.text, attachments := v.attachments, durationSeconds := none }

/-- `normalizeBreakMessages`: `[]` unless the stored field is an array, else
the element-wise normalization. -/
def normalizeBreakMessages : Option (List BreakMessageInput) →
    List BreakMessageContent
  | none => []
  | some inputs => inputs.map normalizeBreakMessage

/-- One `{fromMinutes, toMinutes}` working-hours range. -/
structure WorkingHoursRange where
  fromMinutes : Int
  toMinutes : Int
deriving DecidableEq, Repr

/-- Per-weekday working-hours configuration. -/
structure WorkingHours where
  enabled : Bool
  ranges : List WorkingHoursRange
deriving DecidableEq, Repr

/-- Message-selection mode. -/
inductive BreakMessagesMode
  | random
  | sequential
deriving DecidableEq, Repr

/-- The settings fields read or written by the break timer module. -/
structure Settings where
  breaksEnabled : Bool
  breakFrequencySeconds : Int
  breakLengthSeconds : Int
  postponeLengthSeconds : Int
  postponeLimit : Int
  workingHoursEnabled : Bool
  workingHoursMonday : WorkingHours
  workingHoursTuesday : WorkingHours
  workingHoursWednesday : WorkingHours
  workingHoursThursday : WorkingHours
  workingHoursFriday : WorkingHours
  workingHoursSaturday : WorkingHours
  workingHoursSunday : WorkingHours
  idleResetEnabled : Bool
  idleResetLengthSeconds : Int
  idleResetNotificationFlag : Bool
  breakMessage : String
  breakMessages : Option (List BreakMessageInput)
  breakMessagesMode : Option BreakMessagesMode
  breakMessagesNextIndex : Option JsNum
  breakMessagesOrder : Option (List JsNum)
deriving DecidableEq, Repr

/-- Result of `determineNextBreakMessage`: the message to display and, in
sequential mode, the settings carrying the updated rotation state to be
persisted. -/
structure NextBreakMessageResult where
  message : BreakMessageContent
  updatedSettings : Option Settings
deriving DecidableEq, Repr

/-- `determineNextBreakMessage(settings)`: with a non-empty normalized pool,
sequential mode delegates to `determineNextSequential` (the `typeof` check
maps a missing `breakMessagesNextIndex` to `0`) and returns the settings
updated with the new cursor, order, and normalized pool; random mode picks a
uniformly random pool index (`rand 0 0 % n` models
`Math.floor(Math.random() * n)`); an empty pool falls back to the legacy
single message. -/
def determineNextBreakMessage (rand : Nat → Nat → Nat) (settings : Settings) :
    NextBreakMessageResult :=
  let availableMessages := normalizeBreakMessages settings.breakMessages
  if h : 0 < availableMessages.length then
    if settings.breakMessagesMode = some BreakMessagesMode.sequential then
      let totalMessages := availableMessages.length
      let idxRaw : JsNum := settings.breakMessagesNextIndex.getD (some 0)
      let sel :=
        determineNextSequential rand totalMessages idxRaw
          settings.breakMessagesOrder
      let message :=
        (availableMessages.get? sel.messageIndex).getD
          (availableMessages.get ⟨0, h⟩)
      { message := message,
        updatedSettings := some
          { settings with
            breakMessagesNextIndex := some sel.nextIndex,
            breakMessagesOrder := some (natOrderToJs sel.order),
            breakMessages :=
              some (availableMessages.map BreakMessageInput.content) } }
    else
      { message := availableMessages.get
          ⟨rand 0 0 % availableMessages.length, Nat.mod_lt _ h⟩,
        updatedSettings := none }
  else
    { message := normalizeBreakMessage (.str settings.breakMessage),
      updatedSettings := none }

/-- `cloneBreakMessageContent`: structural copy; preserves `durationSeconds`
when present. -/
def cloneBreakMessageContent :
    Option BreakMessageContent → Option BreakMessageContent
  | none => none
  | some message =>
    some
      { text := message.text,
        attachments := message.attachments.map (fun a => { id := a.id }),
        durationSeconds := message.durationSeconds }

/-- One `messageHistory` entry: the displayed message and its duration. -/
structure BreakMessageHistoryEntry where
  message : BreakMessageContent
  durationMs : Int
deriving DecidableEq, Repr

/-- The break timer module's module-level mutable state (`BreakSessionState`
in the data model). Times are epoch milliseconds. -/
structure BreakTimerState where
  havingBreak : Bool
  breakTime : Option Int
  postponedCount : Int
  idleStart : Option Int
  lockStart : Option Int
  lastTick : Option Int
  startedFromTray : Bool
  lastCompletedBreakTime : Int
  currentBreakStartTime : Option Int
  hasSkippedOrSnoozedSinceLastBreak : Bool
  currentBreakMessage : Option BreakMessageContent
  currentBreakEndTimestamp : Option Int
  currentBreakRemainingMs : Option Int
  currentBreakTotalDurationMs : Option Int
  breakCountdownPaused : Bool
  breakMessageHistory : List BreakMessageHistoryEntry
  breakMessageHistoryIndex : Int
deriving DecidableEq, Repr

/-- `clearBreakMessageHistory`. -/
def clearBreakMessageHistory (s : BreakTimerState) : BreakTimerState :=
  { s with breakMessageHistory := [], breakMessageHistoryIndex := -1 }

/-- `resetCurrentBreakTimerState`: clears the countdown fields, the paused
flag, and the message history. -/
def resetCurrentBreakTimerState (s : BreakTimerState) : BreakTimerState :=
  clearBreakMessageHistory
    { s with
      currentBreakEndTimestamp := none,
      currentBreakRemainingMs := none,
      currentBreakTotalDurationMs := none,
      breakCountdownPaused := false }

/-- `getSecondsFromSettings`: non-positive (or, in the source, non-finite or
non-numeric) configured seconds fall back to `1`. -/
def getSecondsFromSettings (seconds : Int) : Int :=
  if seconds ≤ 0 then 1 else seconds

/-- `getBreakLengthSeconds`: during an active break a positive finite
per-message override (rounded, floored at 1) wins over the global setting. -/
def getBreakLengthSeconds (settings : Settings) (s : BreakTimerState) : Int :=
  if s.havingBreak then
    match s.currentBreakMessage with
    | some message =>
      match message.durationSeconds with
      | some override =>
        if 0 < override then max 1 override else settings.breakLengthSeconds
      | none => settings.breakLengthSeconds
    | none => settings.breakLengthSeconds
  else
    settings.breakLengthSeconds

/-- `getTimeSinceLastBreak`: `null` unless a skip/snooze happened since the
last completed break, else whole seconds since that break (moment `diff`
truncates toward zero; `Int` division is the same truncation here since the
difference is non-negative in every reachable state). -/
def getTimeSinceLastBreak (now : Int) (s : BreakTimerState) : Option Int :=
  if !s.hasSkippedOrSnoozedSinceLastBreak then
    none
  else
    some ((now - s.lastCompletedBreakTime) / 1000)

/-- `completeBreakTracking(breakDurationMs)`: a no-op unless tracking is in
progress; records a completed break iff the tracked duration reaches half the
required duration (`requiredSeconds * 1000 / 2 = requiredSeconds * 500`
exactly, since `requiredSeconds * 1000` is even), else flags a skipped break;
always clears the tracking start. -/
def completeBreakTracking (settings : Settings) (breakDurationMs : Int)
    (now : Int) (s : BreakTimerState) : BreakTimerState :=
  match s.currentBreakStartTime with
  | none => s
  | some _ =>
    let requiredSeconds := getBreakLengthSeconds settings s
    let halfRequiredDuration := requiredSeconds * 500
    if halfRequiredDuration ≤ breakDurationMs then
      { s with
        lastCompletedBreakTime := now,
        hasSkippedOrSnoozedSinceLastBreak := false,
        currentBreakStartTime := none }
    else
      { s with
        hasSkippedOrSnoozedSinceLastBreak := true,
        currentBreakStartTime := none }

/-- `scheduleNextBreak(isPostpone)`: resets the tray flag; a pending idle
period is treated as an implicit completed break (idle bookkeeping cleared,
`postponedCount` reset to 0, last-completed timestamp recorded, skipped flag
cleared, idle notification emitted fire-and-forget); then schedules
`breakTime = now + seconds` with the postpone length or the break frequency,
guarded to at least one second. -/
def scheduleNextBreak (isPostpone : Bool) (settings : Settings) (now : Int)
    (s : BreakTimerState) : BreakTimerState :=
  let s1 := { s with startedFromTray := false }
  let s2 :=
    match s1.idleStart with
    | some _ =>
      { s1 with
        idleStart := none,
        postponedCount := 0,
        lastCompletedBreakTime := now,
        hasSkippedOrSnoozedSinceLastBreak := false }
    | none => s1
  let rawSeconds :=
    if isPostpone then settings.postponeLengthSeconds
    else settings.breakFrequencySeconds
  let seconds := getSecondsFromSettings rawSeconds
  { s2 with breakTime := some (now + seconds * 1000) }

/-- `getAllowPostpone`: allowed when no limit is configured (`!limit`, i.e.
limit `0`) or the count is still below the limit. -/
def getAllowPostpone (settings : Settings) (s : BreakTimerState) : Bool :=
  decide (settings.postponeLimit = 0) ||
    decide (s.postponedCount < settings.postponeLimit)

/-- `postponeBreak(action)`: rejected no-op when a limit is configured and
reached; otherwise increments the count, deactivates the break, clears the
countdown state, flags the skip/snooze, and reschedules with the normal
frequency for "skipped" or the postpone length otherwise. -/
def postponeBreak (action : String) (settings : Settings) (now : Int)
    (s : BreakTimerState) : BreakTimerState :=
  if settings.postponeLimit ≠ 0 ∧ settings.postponeLimit ≤ s.postponedCount then
    s
  else
    let s1 :=
      resetCurrentBreakTimerState
        { s with postponedCount := s.postponedCount + 1, havingBreak := false }
    let s2 := { s1 with hasSkippedOrSnoozedSinceLastBreak := true }
    if action = "skipped" then
      scheduleNextBreak false settings now s2
    else
      scheduleNextBreak true settings now s2

/-- `getHistoryEntry(index)`. -/
def getHistoryEntry (index : Int) (s : BreakTimerState) :
    Option BreakMessageHistoryEntry :=
  if index < 0 ∨ (s.breakMessageHistory.length : Int) ≤ index then
    none
  else
    s.breakMessageHistory.get? index.toNat

/-- `getCurrentHistoryEntry`. -/
def getCurrentHistoryEntry (s : BreakTimerState) :
    Option BreakMessageHistoryEntry :=
  getHistoryEntry s.breakMessageHistoryIndex s

/-- `recordBreakMessageInHistory(message, durationMs)`: no-op for a null
message; otherwise truncates any rewound-over suffix
(`slice(0, max(0, index + 1))`), appends the cloned message with the
duration floored at 1 ms, and points the cursor at the new last entry. -/
def recordBreakMessageInHistory (message : Option BreakMessageContent)
    (durationMs : Int) (s : BreakTimerState) : BreakTimerState :=
  match cloneBreakMessageContent message with
  | none => s
  | some clone =>
    let normalizedDuration := max 1 durationMs
    let history :=
      if s.breakMessageHistoryIndex <
          (s.breakMessageHistory.length : Int) - 1 then
        s.breakMessageHistory.take (max 0 (s.breakMessageHistoryIndex + 1)).toNat
      else
        s.breakMessageHistory
    let history2 :=
      history ++ [{ message := clone, durationMs := normalizedDuration }]
    { s with
      breakMessageHistory := history2,
      breakMessageHistoryIndex := (history2.length : Int) - 1 }

/-- `updateCurrentHistoryEntryDuration(durationMs)`: rewrites the duration of
the entry under the cursor (floored at 1 ms); no-op when the cursor is out of
range. -/
def updateCurrentHistoryEntryDuration (durationMs : Int)
    (s : BreakTimerState) : BreakTimerState :=
  if s.breakMessageHistoryIndex < 0 ∨
      (s.breakMessageHistory.length : Int) ≤ s.breakMessageHistoryIndex then
    s
  else
    match s.breakMessageHistory.get? s.breakMessageHistoryIndex.toNat with
    | none => s
    | some currentEntry =>
      { s with
        breakMessageHistory :=
          s.breakMessageHistory.set s.breakMessageHistoryIndex.toNat
            { currentEntry with durationMs := max 1 durationMs } }

/-- `resolveMessageDurationMs(settings, message)`: milliseconds from a
positive finite per-message override (rounded, floored at 1 second), else
from the global break length (floored at 1 second). -/
def resolveMessageDurationMs (settings : Settings)
    (message : Option BreakMessageContent) : Int :=
  let fallbackSeconds := max 1 settings.breakLengthSeconds
  match message with
  | none => fallbackSeconds * 1000
  | some m =>
    match m.durationSeconds with
    | some override =>
      if 0 < override then (max 1 override) * 1000 else fallbackSeconds * 1000
    | none => fallbackSeconds * 1000

/-- Navigation flags broadcast with every message update. -/
structure BreakMessageNavigationState where
  hasPrevious : Bool
  hasNext : Bool
deriving DecidableEq, Repr

/-- `getBreakMessageNavigationState(settings)`. -/
def getBreakMessageNavigationState (settings : Settings)
    (s : BreakTimerState) : BreakMessageNavigationState :=
  let hasFutureHistory :=
    decide (0 ≤ s.breakMessageHistoryIndex) &&
      decide (s.breakMessageHistoryIndex <
        (s.breakMessageHistory.length : Int) - 1)
  let hasMultipleMessages :=
    decide (1 < (normalizeBreakMessages settings.breakMessages).length)
  { hasPrevious := decide (0 < s.breakMessageHistoryIndex),
    hasNext := hasFutureHistory || hasMultipleMessages }

/-- `getCurrentBreakMessage`: clone of the current message. -/
def getCurrentBreakMessage (s : BreakTimerState) :
    Option BreakMessageContent :=
  cloneBreakMessageContent s.currentBreakMessage

/-- Response of the message navigation operations. -/
structure BreakMessageSwitchResult where
  message : Option BreakMessageContent
  durationMs : Int
  hasPrevious : Bool
  hasNext : Bool
deriving DecidableEq, Repr

/-- `createBreakMessageSwitchResult(durationMs, settings)`. -/
def createBreakMessageSwitchResult (durationMs : Int) (settings : Settings)
    (s : BreakTimerState) : BreakMessageSwitchResult :=
  let nav := getBreakMessageNavigationState settings s
  { message := getCurrentBreakMessage s,
    durationMs := durationMs,
    hasPrevious := nav.hasPrevious,
    hasNext := nav.hasNext }

/-- `applyBreakMessageEntry(entry, settings)`: installs the cloned history
entry as the current message, resets both `totalDurationMs` and `remainingMs`
to the entry duration (floored at 1 ms), and either keeps the countdown
paused with no end timestamp or restarts it at `now + duration`. -/
def applyBreakMessageEntry (entry : BreakMessageHistoryEntry)
    (settings : Settings) (now : Int) (s : BreakTimerState) :
    BreakTimerState × BreakMessageSwitchResult :=
  let clone := cloneBreakMessageContent (some entry.message)
  let targetDurationMs := max 1 entry.durationMs
  let s1 :=
    { s with
      currentBreakMessage := clone,
      currentBreakTotalDurationMs := some targetDurationMs,
      currentBreakRemainingMs := some targetDurationMs }
  let s2 :=
    if s1.breakCountdownPaused then
      { s1 with currentBreakEndTimestamp := none }
    else
      { s1 with
        currentBreakEndTimestamp := some (now + targetDurationMs),
        breakCountdownPaused := false }
  (s2, createBreakMessageSwitchResult targetDurationMs settings s2)

/-- `updateCurrentBreakMessageFromSettings(settings)`: runs the selection
pipeline, installs the chosen message, and hands back the updated settings
for the (best-effort, external) persistence of the rotation state. -/
def updateCurrentBreakMessageFromSettings (rand : Nat → Nat → Nat)
    (settings : Settings) (s : BreakTimerState) :
    BreakTimerState × BreakMessageContent × Option Settings :=
  let result := determineNextBreakMessage rand settings
  ({ s with currentBreakMessage := some result.message }, result.message,
    result.updatedSettings)

/-- `beginBreakCountdown()`: `null` when no break is active; otherwise fixes
the total duration (existing value, else the break length), and resumes from
the paused remaining time, or re-reads a live (truthy) end timestamp, or
starts a fresh countdown of the full duration. Returns
`{breakEndTime, totalDurationMs}`. -/
def beginBreakCountdown (settings : Settings) (now : Int)
    (s : BreakTimerState) : BreakTimerState × Option (Int × Int) :=
  if !s.havingBreak then
    (s, none)
  else
    let totalMs :=
      s.currentBreakTotalDurationMs.getD
        ((max 1 (getBreakLengthSeconds settings s)) * 1000)
    let s1 := { s with currentBreakTotalDurationMs := some totalMs }
    if s1.breakCountdownPaused then
      let remaining := s1.currentBreakRemainingMs.getD totalMs
      let breakEndTime := now + remaining
      ({ s1 with
          currentBreakRemainingMs := some remaining,
          currentBreakEndTimestamp := some breakEndTime,
          breakCountdownPaused := false },
        some (breakEndTime, totalMs))
    else
      if jsTruthyNum s1.currentBreakEndTimestamp then
        let remaining := max 0 (s1.currentBreakEndTimestamp.getD 0 - now)
        ({ s1 with currentBreakRemainingMs := some remaining },
          some (s1.currentBreakEndTimestamp.getD 0, totalMs))
      else
        let breakEndTime := now + totalMs
        ({ s1 with
            currentBreakRemainingMs := some totalMs,
            currentBreakEndTimestamp := some breakEndTime,
            breakCountdownPaused := false },
          some (breakEndTime, totalMs))

/-- `pauseActiveBreak()`: `null` when no break is active; when already paused
returns the stored remaining/total without mutating; otherwise captures the
remaining time from the live (truthy) end timestamp, clears the end
timestamp, and sets the paused flag. Returns `{remainingMs, totalDurationMs}`. -/
def pauseActiveBreak (now : Int) (s : BreakTimerState) :
    BreakTimerState × Option (Int × Int) :=
  if !s.havingBreak then
    (s, none)
  else if s.breakCountdownPaused then
    (s, some (s.currentBreakRemainingMs.getD 0,
      s.currentBreakTotalDurationMs.getD 0))
  else
    let remainingMs :=
      if jsTruthyNum s.currentBreakEndTimestamp then
        max 0 (s.currentBreakEndTimestamp.getD 0 - now)
      else
        s.currentBreakRemainingMs.getD 0
    ({ s with
        currentBreakRemainingMs := some remainingMs,
        currentBreakEndTimestamp := none,
        breakCountdownPaused := true },
      some (remainingMs, s.currentBreakTotalDurationMs.getD remainingMs))

/-- `resumeActiveBreak()`: `null` when no break is active; when not paused
re-asserts (or backfills) the end timestamp without touching the remaining
time; when paused refuses (`null`, no mutation) if the remaining time is not
positive, else restarts the countdown at `now + remainingMs`. Returns
`{breakEndTime, totalDurationMs}`. -/
def resumeActiveBreak (now : Int) (s : BreakTimerState) :
    BreakTimerState × Option (Int × Int) :=
  if !s.havingBreak then
    (s, none)
  else if !s.breakCountdownPaused then
    let endTimestamp :=
      s.currentBreakEndTimestamp.getD (now + s.currentBreakRemainingMs.getD 0)
    ({ s with currentBreakEndTimestamp := some endTimestamp },
      some (endTimestamp,
        s.currentBreakTotalDurationMs.getD (s.currentBreakRemainingMs.getD 0)))
  else
    let remainingMs :=
      s.currentBreakRemainingMs.getD (s.currentBreakTotalDurationMs.getD 0)
    if remainingMs ≤ 0 then
      (s, none)
    else
      let breakEndTime := now + remainingMs
      ({ s with
          currentBreakEndTimestamp := some breakEndTime,
          breakCountdownPaused := false },
        some (breakEndTime, s.currentBreakTotalDurationMs.getD remainingMs))

/-- Which IPC channel an `adjustActiveBreakDuration` response targets. -/
inductive AdjustChannel
  | breakStart
  | breakPause
deriving DecidableEq, Repr

/-- `adjustActiveBreakDuration(deltaMs)`: `null` when no break is active; a
non-finite delta (`none`) normalizes to 0 and a zero delta is a `null` no-op.
Otherwise the total is adjusted with a 1000 ms floor and the remaining time
(from the stored value when paused, else from the live end timestamp) is
adjusted and clamped into `[0, total]`. A zero adjusted remaining resumes the
countdown with `breakEndTime = now` (the natural completion path); otherwise
the paused branch stays paused and the running branch gets
`breakEndTime = now + remaining`. The payload `(channel, first, total)`
carries `breakEndTime` for `breakStart` and `remainingMs` for `breakPause`. -/
def adjustActiveBreakDuration (deltaMs : Option Int) (now : Int)
    (s : BreakTimerState) :
    BreakTimerState × Option (AdjustChannel × Int × Int) :=
  if !s.havingBreak then
    (s, none)
  else
    let normalizedDelta := deltaMs.getD 0
    if normalizedDelta = 0 then
      (s, none)
    else
      let existingTotal := max 1000 (s.currentBreakTotalDurationMs.getD 1000)
      let adjustedTotal0 := existingTotal + normalizedDelta
      let adjustedTotal :=
        if adjustedTotal0 < 1000 then 1000 else adjustedTotal0
      if s.breakCountdownPaused then
        let existingRemaining :=
          max 0 (s.currentBreakRemainingMs.getD adjustedTotal)
        let adjustedRemaining0 := existingRemaining + normalizedDelta
        let adjustedRemaining1 :=
          if adjustedRemaining0 < 0 then 0 else adjustedRemaining0
        let adjustedRemaining :=
          if adjustedTotal < adjustedRemaining1 then adjustedTotal
          else adjustedRemaining1
        let s1 :=
          updateCurrentHistoryEntryDuration adjustedTotal
            { s with
              currentBreakTotalDurationMs := some adjustedTotal,
              currentBreakRemainingMs := some adjustedRemaining }
        if adjustedRemaining = 0 then
          ({ s1 with
              currentBreakEndTimestamp := some now,
              breakCountdownPaused := false },
            some (AdjustChannel.breakStart, now, adjustedTotal))
        else
          ({ s1 with
              currentBreakEndTimestamp := none,
              breakCountdownPaused := true },
            some (AdjustChannel.breakPause, adjustedRemaining, adjustedTotal))
      else
        let derivedRemaining :=
          if jsTruthyNum s.currentBreakEndTimestamp then
            max 0 (s.currentBreakEndTimestamp.getD 0 - now)
          else
            max 0 (s.currentBreakRemainingMs.getD adjustedTotal)
        let adjustedRemaining0 := derivedRemaining + normalizedDelta
        let adjustedRemaining1 :=
          if adjustedRemaining0 < 0 then 0 else adjustedRemaining0
        let adjustedRemaining :=
          if adjustedTotal < adjustedRemaining1 then adjustedTotal
          else adjustedRemaining1
        let s1 :=
          updateCurrentHistoryEntryDuration adjustedTotal
            { s with
              currentBreakTotalDurationMs := some adjustedTotal,
              currentBreakRemainingMs := some adjustedRemaining }
        if adjustedRemaining = 0 then
          ({ s1 with
              currentBreakEndTimestamp := some now,
              breakCountdownPaused := false },
            some (AdjustChannel.breakStart, now, adjustedTotal))
        else
          ({ s1 with
              currentBreakEndTimestamp := some (now + adjustedRemaining),
              breakCountdownPaused := false },
            some (AdjustChannel.breakStart, now + adjustedRemaining,
              adjustedTotal))

/-- `getCurrentBreakRemainingMs()`: the stored remaining time when paused,
else the live countdown from a truthy end timestamp, else `null`. -/
def getCurrentBreakRemainingMs (now : Int) (s : BreakTimerState) :
    Option Int :=
  if s.breakCountdownPaused then
    s.currentBreakRemainingMs
  else if jsTruthyNum s.currentBreakEndTimestamp then
    some (max 0 (s.currentBreakEndTimestamp.getD 0 - now))
  else
    none

/-- `skipCurrentBreakMessage()`: with no active break, a logged no-op
returning a snapshot built from the current message's resolved duration;
otherwise replays forward history if the user had rewound, else pulls a new
message from the selection pipeline, records it, and applies it. -/
def skipCurrentBreakMessage (rand : Nat → Nat → Nat) (settings : Settings)
    (now : Int) (s : BreakTimerState) :
    BreakTimerState × BreakMessageSwitchResult :=
  if !s.havingBreak then
    (s, createBreakMessageSwitchResult
      (resolveMessageDurationMs settings s.currentBreakMessage) settings s)
  else
    let nextHistoryIndex := s.breakMessageHistoryIndex + 1
    match getHistoryEntry nextHistoryIndex s with
    | some historyEntry =>
      applyBreakMessageEntry historyEntry settings now
        { s with breakMessageHistoryIndex := nextHistoryIndex }
    | none =>
      let step := updateCurrentBreakMessageFromSettings rand settings s
      let s1 := step.1
      let newMessage := step.2.1
      let targetDurationMs :=
        resolveMessageDurationMs settings (some newMessage)
      let s2 := recordBreakMessageInHistory (some newMessage) targetDurationMs s1
      match getCurrentHistoryEntry s2 with
      | some currentEntry => applyBreakMessageEntry currentEntry settings now s2
      | none => (s2, createBreakMessageSwitchResult targetDurationMs settings s2)

/-- `goToPreviousBreakMessage()`: with no active break, or already at the
first history entry, a logged no-op returning a snapshot; otherwise moves the
cursor back one slot and applies that entry. -/
def goToPreviousBreakMessage (settings : Settings) (now : Int)
    (s : BreakTimerState) : BreakTimerState × BreakMessageSwitchResult :=
  if !s.havingBreak then
    (s, createBreakMessageSwitchResult
      (resolveMessageDurationMs settings s.currentBreakMessage) settings s)
  else
    let previousHistoryIndex := s.breakMessageHistoryIndex - 1
    if previousHistoryIndex < 0 then
      (s, createBreakMessageSwitchResult
        (resolveMessageDurationMs settings s.currentBreakMessage) settings s)
    else
      match getHistoryEntry previousHistoryIndex s with
      | none =>
        (s, createBreakMessageSwitchResult
          (resolveMessageDurationMs settings s.currentBreakMessage) settings s)
      | some previousEntry =>
        applyBreakMessageEntry previousEntry settings now
          { s with breakMessageHistoryIndex := previousHistoryIndex }

/-- The weekday-indexed day configuration (`dayMap`; `0` is Sunday as with
moment `day()`). -/
def workingHoursFor (settings : Settings) : Fin 7 → WorkingHours
  | 0 => settings.workingHoursSunday
  | 1 => settings.workingHoursMonday
  | 2 => settings.workingHoursTuesday
  | 3 => settings.workingHoursWednesday
  | 4 => settings.workingHoursThursday
  | 5 => settings.workingHoursFriday
  | 6 => settings.workingHoursSaturday

/-- `checkInWorkingHours()`: `true` when the feature is globally off;
otherwise `false` when today's config is off, else whether the current
minute-of-day lies in some range (both bounds inclusive). `now` is modelled
by its weekday and minute-of-day. -/
def checkInWorkingHours (settings : Settings) (dayOfWeek : Fin 7)
    (currentMinutes : Int) : Bool :=
  if !settings.workingHoursEnabled then
    true
  else
    let todaySettings := workingHoursFor settings dayOfWeek
    if !todaySettings.enabled then
      false
    else
      todaySettings.ranges.any fun range =>
        decide (range.fromMinutes ≤ currentMinutes) &&
          decide (currentMinutes ≤ range.toMinutes)

/-- The operations that can act on an active break's countdown, as invoked
from the IPC boundary. -/
inductive BreakOp
  | beginCountdown (settings : Settings)
  | pause
  | resume
  | adjustDuration (deltaMs : Option Int)
  | nextMessage (settings : Settings) (rand : Nat → Nat → Nat)
  | prevMessage (settings : Settings)

/-- State effect of one operation executed at wall-clock time `now`. -/
def stepBreakOp (op : BreakOp) (now : Int) (s : BreakTimerState) :
    BreakTimerState :=
  match op with
  | .beginCountdown settings => (beginBreakCountdown settings now s).1
  | .pause => (pauseActiveBreak now s).1
  | .resume => (resumeActiveBreak now s).1
  | .adjustDuration deltaMs => (adjustActiveBreakDuration deltaMs now s).1
  | .nextMessage settings rand => (skipCurrentBreakMessage rand settings now s).1
  | .prevMessage settings => (goToPreviousBreakMessage settings now s).1

/-- Run a list of timestamped operations in order. -/
def runBreakOps : List (BreakOp × Int) → BreakTimerState → BreakTimerState
  | [], s => s
  | (op, t) :: rest, s => runBreakOps rest (stepBreakOp op t s)

/-- The operation timestamps are chronological from `t0` on (the wall clock
does not run backwards). -/
def timesMono : Int → List (BreakOp × Int) → Bool
  | _, [] => true
  | t, (_, t1) :: rest => decide (t ≤ t1) && timesMono t1 rest

/-- Countdown invariant at wall-clock time `t`: the total duration is set and
non-negative, the remaining time (when set) lies in `[0, total]`, and a set
end timestamp is at most `t + total` (equivalently, the live remaining time
never exceeds the total). -/
def countdownInv (s : BreakTimerState) (t : Int) : Bool :=
  match s.currentBreakTotalDurationMs with
  | none => false
  | some tot =>
    decide (0 ≤ tot) &&
      (match s.currentBreakRemainingMs with
        | some r => decide (0 ≤ r) && decide (r ≤ tot)
        | none => true) &&
      (match s.currentBreakEndTimestamp with
        | some e => decide (e ≤ t + tot)
        | none => true)

/-- Fixture: a disabled weekday. -/
def emptyDay : WorkingHours :=
  { enabled := false, ranges := [] }

/-- Fixture: a working weekday, 09:00 to 17:00. -/
def sampleDay : WorkingHours :=
  { enabled := true, ranges := [{ fromMinutes := 540, toMinutes := 1020 }] }

/-- Fixture: a break message. -/
def sampleMessage : BreakMessageContent :=
  { text := "rest", attachments := [], durationSeconds := none }

/-- Fixture settings: 25-minute frequency, 2-minute breaks, postpone limit 2,
working hours Monday to Friday. -/
def sampleSettings : Settings :=
  { breaksEnabled := true,
    breakFrequencySeconds := 1500,
    breakLengthSeconds := 120,
    postponeLengthSeconds := 300,
    postponeLimit := 2,
    workingHoursEnabled := true,
    workingHoursMonday := sampleDay,
    workingHoursTuesday := sampleDay,
    workingHoursWednesday := sampleDay,
    workingHoursThursday := sampleDay,
    workingHoursFriday := sampleDay,
    workingHoursSaturday := emptyDay,
    workingHoursSunday := emptyDay,
    idleResetEnabled := true,
    idleResetLengthSeconds := 300,
    idleResetNotificationFlag := false,
    breakMessage := "Time for a break",
    breakMessages := none,
    breakMessagesMode := none,
    breakMessagesNextIndex := none,
    breakMessagesOrder := none }

/-- The module-level state at process start (all bookkeeping cleared; the
last-completed timestamp starts at process launch, modelled as `0`). -/
def initialBreakTimerState : BreakTimerState :=
  { havingBreak := false,
    breakTime := none,
    postponedCount := 0,
    idleStart := none,
    lockStart := none,
    lastTick := none,
    startedFromTray := false,
    lastCompletedBreakTime := 0,
    currentBreakStartTime := none,
    hasSkippedOrSnoozedSinceLastBreak := false,
    currentBreakMessage := none,
    currentBreakEndTimestamp := none,
    currentBreakRemainingMs := none,
    currentBreakTotalDurationMs := none,
    breakCountdownPaused := false,
    breakMessageHistory := [],
    breakMessageHistoryIndex := -1 }

/-- Fixture: an active popup break whose countdown is running
(2-minute total, end timestamp 5000). -/
def sampleActiveBreak : BreakTimerState :=
  { initialBreakTimerState with
    havingBreak := true,
    currentBreakMessage := some sampleMessage,
    currentBreakTotalDurationMs := some 120000,
    currentBreakRemainingMs := some 120000,
    currentBreakEndTimestamp := some 5000,
    breakMessageHistory := [{ message := sampleMessage, durationMs := 120000 }],
    breakMessageHistoryIndex := 0 }

/-- The total duration that `adjustActiveBreakDuration` installs for a given
delta: the existing total (missing values and values below the floor read as
1000 ms) plus the delta, floored at 1000 ms. -/
def adjustedTotalOf (deltaMs : Int) (s : BreakTimerState) : Int :=
  max 1000 (max 1000 (s.currentBreakTotalDurationMs.getD 1000) + deltaMs)

/-- The remaining time that `adjustActiveBreakDuration` starts from: the
stored remaining time when paused, else the live countdown from a truthy end
timestamp, else the stored remaining time; missing values read as the
adjusted total, and the result is floored at 0. -/
def adjustBaseOf (deltaMs now : Int) (s : BreakTimerState) : Int :=
  if s.breakCountdownPaused then
    max 0 (s.currentBreakRemainingMs.getD (adjustedTotalOf deltaMs s))
  else if jsTruthyNum s.currentBreakEndTimestamp then
    max 0 (s.currentBreakEndTimestamp.getD 0 - now)
  else
    max 0 (s.currentBreakRemainingMs.getD (adjustedTotalOf deltaMs s))

/-! ## Theorems -/

theorem cons_set_perm {α : Type _} (a b : α) :
    ∀ (t : List α) (k : Nat), t.get? k = some b →
      List.Perm (b :: t.set k a) (a :: t) := by
  intro t
  induction t with
  | nil => intro k hk; simp at hk
  | cons c t ih =>
    intro k hk
    cases k with
    | zero =>
      simp only [List.get?_cons_zero, Option.some.injEq] at hk
      subst hk
      simpa using List.Perm.swap a c t
    | succ k =>
      simp only [List.get?_cons_succ] at hk
      have h1 : List.Perm (b :: c :: t.set k a) (c :: b :: t.set k a) :=
        List.Perm.swap c b _
      have h2 : List.Perm (c :: b :: t.set k a) (c :: a :: t) :=
        List.Perm.cons c (ih k hk)
      have h3 : List.Perm (c :: a :: t) (a :: c :: t) := List.Perm.swap a c t
      simpa using (h1.trans h2).trans h3

theorem set_set_swap_perm {α : Type _} :
    ∀ (l : List α) (i j : Nat) (a b : α), l.get? i = some a →
      l.get? j = some b → List.Perm ((l.set i b).set j a) l := by
  intro l
  induction l with
  | nil => intro i j a b hi _; simp at hi
  | cons x t ih =>
    intro i j a b hi hj
    cases i with
    | zero =>
      simp only [List.get?_cons_zero, Option.some.injEq] at hi
      subst hi
      cases j with
      | zero =>
        simp only [List.get?_cons_zero, Option.some.injEq] at hj
        subst hj
        simp
      | succ j =>
        simp only [List.get?_cons_succ] at hj
        simpa using cons_set_perm x b t j hj
    | succ i =>
      simp only [List.get?_cons_succ] at hi
      cases j with
      | zero =>
        simp only [List.get?_cons_zero, Option.some.injEq] at hj
        subst hj
        simpa using cons_set_perm x a t i hi
      | succ j =>
        simp only [List.get?_cons_succ] at hj
        simpa using List.Perm.cons x (ih i j a b hi hj)

theorem listSwap_perm {α : Type _} (l : List α) (i j : Nat) :
    List.Perm (listSwap l i j) l := by
  unfold listSwap
  cases hi : l.get? i with
  | none => simp
  | some a =>
    cases hj : l.get? j with
    | none => simp
    | some b => exact set_set_swap_perm l i j a b hi hj

theorem fyLoop_perm (rand : Nat → Nat) :
    ∀ (k : Nat) (l : List Nat), List.Perm (fyLoop rand k l) l := by
  intro k
  induction k with
  | zero => intro l; simp [fyLoop]
  | succ k ih =>
    intro l
    exact (ih _).trans (listSwap_perm l (k + 1) (rand (k + 1) % (k + 2)))

theorem generateSequentialOrder_perm (rand : Nat → Nat) (n : Nat) :
    List.Perm (generateSequentialOrder rand n) (List.range n) :=
  fyLoop_perm rand (n - 1) (List.range n)

theorem generateSequentialOrder_length (rand : Nat → Nat) (n : Nat) :
    (generateSequentialOrder rand n).length = n := by
  simpa using (generateSequentialOrder_perm rand n).length_eq

/-- C3: for every `n ≥ 1` and every outcome of the random draws,
`generateOrder(n)` returns a permutation of `[0, n)`: the output has length
`n` and, when sorted, equals `[0, 1, ..., n-1]`. -/
theorem generateSequentialOrder_is_permutation (rand : Nat → Nat) (n : Nat)
    (h : 1 ≤ n) :
    (generateSequentialOrder rand n).length = n ∧
      (generateSequentialOrder rand n).mergeSort (fun a b => a ≤ b) =
        List.range n := by
  refine ⟨generateSequentialOrder_length rand n, ?_⟩
  have hp : List.Perm ((generateSequentialOrder rand n).mergeSort
      (fun a b => a ≤ b)) (List.range n) :=
    (List.mergeSort_perm _ _).trans (generateSequentialOrder_perm rand n)
  exact List.eq_of_perm_of_sorted hp (by simpa using List.sorted_mergeSort' _)
    (List.sorted_le_range n)

/-- Witness for C3 at `n = 3` with the all-zero random oracle. -/
theorem generateSequentialOrder_is_permutation_witness :
    (generateSequentialOrder (fun _ => 0) 3).length = 3 ∧
      (generateSequentialOrder (fun _ => 0) 3).mergeSort (fun a b => a ≤ b) =
        List.range 3 :=
  generateSequentialOrder_is_permutation (fun _ => 0) 3 (by decide)

theorem sanitizeSequentialOrderLoop_sound (n : Nat) :
    ∀ (l : List JsNum) (seen : List Int),
      sanitizeSequentialOrderLoop n l seen = true →
      ∃ ks : List Int, l = ks.map some ∧
        (∀ k ∈ ks, 0 ≤ k ∧ k < (n : Int)) ∧ ks.Nodup ∧ ∀ k ∈ ks, k ∉ seen := by
  intro l
  induction l with
  | nil =>
    intro seen _
    exact ⟨[], by simp⟩
  | cons v rest ih =>
    intro seen h
    cases v with
    | none => simp [sanitizeSequentialOrderLoop] at h
    | some value =>
      rw [sanitizeSequentialOrderLoop] at h
      split at h
      · rename_i hcond
        obtain ⟨ks, hrest, hbound, hnd, hseen⟩ := ih (value :: seen) h
        refine ⟨value :: ks, by simp [hrest], ?_, ?_, ?_⟩
        · intro k hk
          rcases List.mem_cons.mp hk with rfl | hk
          · exact ⟨hcond.1, hcond.2.1⟩
          · exact hbound k hk
        · refine List.nodup_cons.mpr ⟨?_, hnd⟩
          intro hmem
          exact (hseen value hmem) (List.mem_cons_self _ _)
        · intro k hk
          rcases List.mem_cons.mp hk with rfl | hk
          · exact hcond.2.2
          · intro hks
            exact (hseen k hk) (List.mem_cons_of_mem _ hks)
      · exact absurd h (by simp)

theorem sanitizeSequentialOrder_sound {ord : Option (List JsNum)} {n : Nat}
    {o : List Nat} (h : sanitizeSequentialOrder ord n = some o) :
    o.length = n ∧ List.Perm o (List.range n) := by
  cases ord with
  | none => simp [sanitizeSequentialOrder] at h
  | some l =>
    rw [sanitizeSequentialOrder] at h
    split at h
    case isFalse => exact absurd h (by simp)
    case isTrue hcond =>
      obtain ⟨hlen, hloop⟩ := hcond
      obtain ⟨ks, rfl, hbound, hnd, _⟩ := sanitizeSequentialOrderLoop_sound n l [] hloop
      simp only [Option.some.injEq] at h
      subst h
      have hmap : (ks.map some).map jsNumToNat = ks.map (fun k => k.toNat) := by
        simp [jsNumToNat, Function.comp]
      rw [hmap]
      simp only [List.length_map] at hlen
      have hlen2 : (ks.map (fun k => k.toNat)).length = n := by simpa using hlen
      refine ⟨hlen2, ?_⟩
      have hnodup : (ks.map (fun k => k.toNat)).Nodup := by
        refine List.Nodup.map_on ?_ hnd
        intro x hx y hy hxy
        have hx0 := (hbound x hx).1
        have hy0 := (hbound y hy).1
        omega
      have hsub : (ks.map (fun k => k.toNat)) ⊆ List.range n := by
        intro x hx
        obtain ⟨k, hk, rfl⟩ := List.mem_map.mp hx
        have := hbound k hk
        exact List.mem_range.mpr (by omega)
      have hsp := List.Nodup.subperm hnodup hsub
      exact hsp.perm_of_length_le (by simp [hlen2])

theorem sanitizeSequentialOrderLoop_complete (n : Nat) :
    ∀ (o : List Nat) (seen : List Int), o.Nodup → (∀ x ∈ o, x < n) →
      (∀ x ∈ o, ((x : Int) ∉ seen)) →
      sanitizeSequentialOrderLoop n (natOrderToJs o) seen = true := by
  intro o
  induction o with
  | nil => intro seen _ _ _; simp [sanitizeSequentialOrderLoop]
  | cons x rest ih =>
    intro seen hnd hbound hseen
    rw [natOrderToJs, List.map_cons, sanitizeSequentialOrderLoop]
    rw [if_pos]
    · refine ih (x :: seen) (List.nodup_cons.mp hnd).2
        (fun y hy => hbound y (List.mem_cons_of_mem _ hy)) ?_
      intro y hy hmem
      rcases List.mem_cons.mp hmem with hxy | hmem2
      · have hne : y ≠ x := fun hEq => (List.nodup_cons.mp hnd).1 (hEq ▸ hy)
        exact hne (by exact_mod_cast hxy)
      · exact hseen y (List.mem_cons_of_mem _ hy) hmem2
    · refine ⟨by positivity, ?_, ?_⟩
      · exact_mod_cast hbound x (List.mem_cons_self _ _)
      · exact hseen x (List.mem_cons_self _ _)

theorem sanitizeSequentialOrder_roundtrip {o : List Nat} {n : Nat}
    (hp : List.Perm o (List.range n)) :
    sanitizeSequentialOrder (some (natOrderToJs o)) n = some o := by
  have hlen : o.length = n := by simpa using hp.length_eq
  have hnd : o.Nodup := hp.nodup_iff.mpr (List.nodup_range n)
  have hbound : ∀ x ∈ o, x < n := fun x hx =>
    List.mem_range.mp (hp.mem_iff.mp hx)
  rw [sanitizeSequentialOrder]
  rw [if_pos]
  · congr 1
    rw [natOrderToJs, List.map_map]
    have : (jsNumToNat ∘ fun x : Nat => some ((x : Nat) : Int)) = fun x : Nat => x := by
      funext x
      simp [jsNumToNat, Function.comp]
    rw [this]
    exact List.map_id o
  · constructor
    · simpa [natOrderToJs] using hlen
    · exact sanitizeSequentialOrderLoop_complete n o [] hnd hbound
        (by intro x _ hx; simp at hx)

theorem tmod_lower_bound (k : Int) {n : Int} (hn : 0 < n) : -n < Int.tmod k n := by
  rcases le_or_lt 0 k with hk | hk
  · have := Int.tmod_nonneg n hk
    omega
  · have hneg : Int.tmod k n = -(Int.tmod (-k) n) := by
      rw [Int.tmod_def, Int.tmod_def, Int.neg_tdiv]
      ring
    have h0 : (0 : Int) ≤ -k := by omega
    have h1 : Int.tmod (-k) n = (-k) % n := Int.tmod_eq_emod h0 (le_of_lt hn)
    have h2 : (-k) % n < n := Int.emod_lt_of_pos (-k) hn
    omega

theorem jsNormalizeIndex_spec (k : Int) {n : Nat} (hn : 0 < n) :
    ∃ c : Nat, c < n ∧ jsNormalizeIndex (some k) n = some ((c : Nat) : Int) := by
  have hnI : (0 : Int) < (n : Int) := by exact_mod_cast hn
  have hup : Int.tmod k n < (n : Int) := Int.tmod_lt_of_pos k hnI
  have hlo : -(n : Int) < Int.tmod k n := tmod_lower_bound k hnI
  have h0 : (0 : Int) ≤ Int.tmod k n + n := by omega
  have heq : Int.tmod (Int.tmod k n + n) n = (Int.tmod k n + n) % n :=
    Int.tmod_eq_emod h0 (le_of_lt hnI)
  have hnn : (0 : Int) ≤ (Int.tmod k n + n) % n :=
    Int.emod_nonneg _ (by omega)
  have hlt : (Int.tmod k n + n) % n < n := Int.emod_lt_of_pos _ hnI
  refine ⟨((Int.tmod k n + n) % n).toNat, by omega, ?_⟩
  simp only [jsNormalizeIndex, heq]
  congr 1
  omega

theorem jsNormalizeIndex_of_lt {c n : Nat} (h : c < n) :
    jsNormalizeIndex (some ((c : Nat) : Int)) n = some ((c : Nat) : Int) := by
  have hc0 : (0 : Int) ≤ (c : Int) := by positivity
  have hcn : (c : Int) < (n : Int) := by exact_mod_cast h
  have h1 : Int.tmod (c : Int) n = (c : Int) := Int.tmod_eq_of_lt hc0 hcn
  have h2 : Int.tmod ((c : Int) + n) n = ((c : Int) + n) % n :=
    Int.tmod_eq_emod (by omega) (by omega)
  have h3 : ((c : Int) + (n : Int) * 1) % n = (c : Int) % n :=
    Int.add_mul_emod_self_left (c : Int) (n : Int) 1
  have h4 : (c : Int) % n = (c : Int) := Int.emod_eq_of_lt hc0 hcn
  simp only [jsNormalizeIndex, h1, h2]
  rw [show ((c : Int) + n) = ((c : Int) + (n : Int) * 1) by ring, h3, h4]

/-- One sequential selection from a cycle-consistent state: cursor `c < n`
and a stored order that the sanitizer accepts as `o`. -/
theorem determineNextSequential_valid (rand : Nat → Nat → Nat) {n c : Nat}
    {ord : Option (List JsNum)} {o : List Nat} (hc : c < n)
    (ho : sanitizeSequentialOrder ord n = some o) :
    determineNextSequential rand n (some ((c : Nat) : Int)) ord =
      if n ≤ c + 1 then
        ⟨o.getD c 0, some 0, generateSequentialOrder (rand 1) n⟩
      else
        ⟨o.getD c 0, some (((c : Nat) : Int) + 1), o⟩ := by
  obtain ⟨hlen, hperm⟩ := sanitizeSequentialOrder_sound ho
  have hcl : c < o.length := by omega
  have hlook : (jsListLookup o (some ((c : Nat) : Int))).getD 0 = o.getD c 0 := by
    simp only [jsListLookup, Int.toNat_natCast]
    rw [if_pos (by positivity)]
    rw [List.getD_eq_getElem o 0 hcl]
    rw [List.get?_eq_getElem?, List.getElem?_eq_getElem hcl]
    rfl
  have hge : jsGeNat (some (((c : Nat) : Int) + 1)) n = decide (n ≤ c + 1) := by
    simp only [jsGeNat]
    apply decide_eq_decide.mpr
    constructor
    · intro hle; exact_mod_cast hle
    · intro hle; exact_mod_cast hle
  simp only [determineNextSequential, jsNormalizeIndex_of_lt hc, ho,
    Option.map_some']
  rw [hge, hlook]
  by_cases hcase : n ≤ c + 1
  · simp [hcase]
  · simp [hcase]

theorem seqTrace_length (rands : Nat → Nat → Nat → Nat) (n : Nat) :
    ∀ (k : Nat) (st : JsNum × Option (List JsNum)),
      (seqTrace rands n k st).length = k := by
  intro k
  induction k generalizing rands with
  | zero => intro st; rfl
  | succ k ih => intro st; simp [seqTrace, ih]

theorem seqTrace_add (n : Nat) :
    ∀ (k₁ : Nat) (rands : Nat → Nat → Nat → Nat) (k₂ : Nat)
      (st : JsNum × Option (List JsNum)),
      seqTrace rands n (k₁ + k₂) st =
        seqTrace rands n k₁ st ++
          seqTrace (fun j => rands (j + k₁)) n k₂ (seqRun rands n k₁ st) := by
  intro k₁
  induction k₁ with
  | zero =>
    intro rands k₂ st
    simp [seqTrace, seqRun]
  | succ k₁ ih =>
    intro rands k₂ st
    have harith : k₁ + 1 + k₂ = (k₁ + k₂) + 1 := by omega
    rw [harith]
    show (seqStep (rands 0) n st).1 ::
        seqTrace (fun j => rands (j + 1)) n (k₁ + k₂) (seqStep (rands 0) n st).2 = _
    rw [ih (fun j => rands (j + 1)) k₂ (seqStep (rands 0) n st).2]
    simp only [seqTrace, seqRun, List.cons_append]
    congr 1

/-- Tail of one sequential cycle: starting at cursor `c < n` with a stored
order the sanitizer accepts as `o`, the remaining `n - c` calls select
`o[c], ..., o[n-1]` and leave the persisted state at cursor `0` with a fresh
valid order. -/
theorem seqTrace_cycle (n : Nat) :
    ∀ (k : Nat) (rands : Nat → Nat → Nat → Nat) (c : Nat)
      (ord : Option (List JsNum)) (o : List Nat),
      c + k = n → c < n → sanitizeSequentialOrder ord n = some o →
      seqTrace rands n k (some ((c : Nat) : Int), ord) = o.drop c ∧
        ∃ o2, List.Perm o2 (List.range n) ∧
          seqRun rands n k (some ((c : Nat) : Int), ord) =
            (some 0, some (natOrderToJs o2)) := by
  intro k
  induction k with
  | zero => intro rands c ord o hsum hc _; omega
  | succ k ih =>
    intro rands c ord o hsum hc ho
    obtain ⟨hlen, hperm⟩ := sanitizeSequentialOrder_sound ho
    have hcl : c < o.length := by omega
    have hstep := determineNextSequential_valid (rands 0) hc ho
    have hgetD : o.getD c 0 = o[c] := List.getD_eq_getElem o 0 hcl
    by_cases hwrap : n ≤ c + 1
    · have hk : k = 0 := by omega
      subst hk
      rw [if_pos hwrap] at hstep
      have hdrop : o.drop c = [o[c]] := by
        rw [List.drop_eq_getElem_cons hcl]
        have : o.drop (c + 1) = [] := List.drop_eq_nil_of_le (by omega)
        rw [this]
      constructor
      · simp only [seqTrace, seqStep, hstep, hdrop, hgetD]
      · refine ⟨generateSequentialOrder ((rands 0) 1) n,
          generateSequentialOrder_perm _ n, ?_⟩
        simp only [seqRun, seqStep, hstep]
    · have hc1 : c + 1 < n := by omega
      rw [if_neg hwrap] at hstep
      have hcast : (((c : Nat) : Int) + 1) = (((c + 1 : Nat) : Nat) : Int) := by
        push_cast
        ring
      have hsan2 : sanitizeSequentialOrder (some (natOrderToJs o)) n = some o :=
        sanitizeSequentialOrder_roundtrip hperm
      have hstep2 : (seqStep (rands 0) n (some ((c : Nat) : Int), ord)).2 =
          (some (((c + 1 : Nat) : Nat) : Int), some (natOrderToJs o)) := by
        simp only [seqStep, hstep, hcast]
      obtain ⟨htr, o2, ho2, hrun⟩ := ih (fun j => rands (j + 1)) (c + 1)
        (some (natOrderToJs o)) o (by omega) hc1 hsan2
      constructor
      · rw [seqTrace, hstep2, htr]
        simp only [seqStep, hstep]
        rw [hgetD, ← List.drop_eq_getElem_cons hcl]
      · refine ⟨o2, ho2, ?_⟩
        rw [seqRun, hstep2, hrun]

/-- C1 (amended): in sequential mode with a pool of `n ≥ 1` messages, starting
from a cycle-aligned rotation state (cursor `0`, stored order accepted by the
sanitizer as `o`), every aligned block of `n` consecutive `selectNext` calls —
the `(j+1)`-st block consists of calls `j*n, ..., j*n + n - 1` — selects every
pool index exactly once (the block of selected indices is a permutation of
`[0, n)`); the cursor wraps to `0` with a freshly generated order after each
block, so this holds for every block `j`. -/
theorem seq_aligned_cycles_visit_each_pool_index_once
    (rands : Nat → Nat → Nat → Nat) (n j : Nat) (ord : Option (List JsNum))
    (o : List Nat) (h1 : 1 ≤ n) (ho : sanitizeSequentialOrder ord n = some o) :
    List.Perm
      ((seqTrace rands n (j * n + n) ((some 0 : JsNum), ord)).drop (j * n))
      (List.range n) := by
  have hzero : ((some 0 : JsNum), ord) = (some (((0 : Nat) : Nat) : Int), ord) := by
    norm_num
  induction j generalizing rands ord o with
  | zero =>
    rw [hzero]
    obtain ⟨htr, _⟩ := seqTrace_cycle n n rands 0 ord o (by omega) (by omega) ho
    rw [Nat.zero_mul, Nat.zero_add, List.drop_zero, htr, List.drop_zero]
    exact (sanitizeSequentialOrder_sound ho).2
  | succ j ih =>
    rw [hzero]
    obtain ⟨htr, o2, ho2, hrun⟩ :=
      seqTrace_cycle n n rands 0 ord o (by omega) (by omega) ho
    have harith : (j + 1) * n + n = n + (j * n + n) := by ring
    rw [harith, seqTrace_add n n rands (j * n + n) _, hrun]
    have hlen1 : (seqTrace rands n n (some (((0 : Nat) : Nat) : Int), ord)).length
        = n := seqTrace_length rands n n _
    have harith2 : (j + 1) * n =
        (seqTrace rands n n (some (((0 : Nat) : Nat) : Int), ord)).length + j * n := by
      rw [hlen1]; ring
    rw [harith2, List.drop_append (j * n)]
    have hsan2 : sanitizeSequentialOrder (some (natOrderToJs o2)) n = some o2 :=
      sanitizeSequentialOrder_roundtrip ho2
    have := ih (fun j => rands (j + n)) (some (natOrderToJs o2)) o2 hsan2
    simpa using this

/-- Witness for C1 (amended) at `n = 2`, second block (`j = 1`), stored order
`[1, 0]`, all-zero random oracle. -/
theorem seq_aligned_cycles_witness :
    List.Perm
      ((seqTrace (fun _ _ _ => 0) 2 (1 * 2 + 2)
        ((some 0 : JsNum), some [some 1, some 0])).drop (1 * 2))
      (List.range 2) :=
  seq_aligned_cycles_visit_each_pool_index_once (fun _ _ _ => 0) 2 1
    (some [some 1, some 0]) [1, 0] (by decide) (by decide)

/-- C1 counterexample: with pool size `2` and the valid mid-cycle rotation
state (cursor `1`, order `[0, 1]`), two consecutive `selectNext` calls select
pool index `1` twice (the wrap regenerates order `[1, 0]`), so they do not
select every pool index exactly once. -/
theorem seq_midcycle_two_calls_repeat_an_index :
    seqTrace (fun _ _ _ => 0) 2 2 ((some 1 : JsNum), some [some 0, some 1]) =
        [1, 1] ∧
      ¬ List.Perm [1, 1] (List.range 2) := by
  decide

/-- C8 (amended): in sequential mode with pool size `n ≥ 1`, for every stored
*integer* cursor (including negative values) the double-modulo normalizes the
cursor into `[0, n)`, the selected pool index is in range, and the updated
`nextIndex` returned for persistence is an integer in `[0, n)`; a stored `NaN`
cursor, by contrast, is not normalized (see the counterexample). -/
theorem seq_integer_cursor_normalized (rand : Nat → Nat → Nat) (n : Nat)
    (k : Int) (ord : Option (List JsNum)) (h1 : 1 ≤ n) :
    (determineNextSequential rand n (some k) ord).messageIndex < n ∧
      ∃ j : Int, (determineNextSequential rand n (some k) ord).nextIndex = some j ∧
        0 ≤ j ∧ j < (n : Int) := by
  obtain ⟨c, hc, hnorm⟩ := jsNormalizeIndex_spec k (show 0 < n by omega)
  have horder : ∀ o : List Nat,
      (match sanitizeSequentialOrder ord n with
        | some o => o
        | none => generateSequentialOrder (rand 0) n) = o →
      List.Perm o (List.range n) := by
    intro o hEq
    cases hsan : sanitizeSequentialOrder ord n with
    | none =>
      rw [hsan] at hEq
      exact hEq ▸ generateSequentialOrder_perm (rand 0) n
    | some o1 =>
      rw [hsan] at hEq
      exact hEq ▸ (sanitizeSequentialOrder_sound hsan).2
  set o := (match sanitizeSequentialOrder ord n with
    | some o => o
    | none => generateSequentialOrder (rand 0) n) with hodef
  have hperm : List.Perm o (List.range n) := horder o rfl
  have hmem : ∀ x ∈ o, x < n := fun x hx =>
    List.mem_range.mp (hperm.mem_iff.mp hx)
  have hlook : (jsListLookup o (some ((c : Nat) : Int))).getD 0 < n := by
    simp only [jsListLookup, Int.toNat_natCast]
    rw [if_pos (by positivity)]
    cases hget : o.get? c with
    | none => simpa using h1
    | some v =>
      have : v ∈ o := List.get?_mem hget
      simpa using hmem v this
  simp only [determineNextSequential, hnorm, ← hodef, Option.map_some']
  by_cases hge : jsGeNat (some (((c : Nat) : Int) + 1)) n = true
  · rw [if_pos hge]
    exact ⟨hlook, 0, rfl, le_refl 0, by exact_mod_cast Nat.pos_of_ne_zero (by omega)⟩
  · rw [if_neg hge]
    refine ⟨hlook, ((c : Nat) : Int) + 1, rfl, by positivity, ?_⟩
    simp only [jsGeNat, decide_eq_true_eq] at hge
    omega

/-- Witness for C8 (amended) at `n = 3`, stored cursor `-7`, unusable stored
order. -/
theorem seq_integer_cursor_normalized_witness :
    (determineNextSequential (fun _ _ => 0) 3 (some (-7)) none).messageIndex < 3 ∧
      ∃ j : Int,
        (determineNextSequential (fun _ _ => 0) 3 (some (-7)) none).nextIndex =
            some j ∧
          0 ≤ j ∧ j < (3 : Int) :=
  seq_integer_cursor_normalized (fun _ _ => 0) 3 (-7) none (by decide)

/-- C8 counterexample: with pool size `1` and stored cursor `NaN`, the updated
`nextIndex` returned for persistence is `NaN` (`NaN + 1` is `NaN` and the wrap
comparison is false), not an integer in `[0, 1)`. -/
theorem seq_nan_cursor_persists_nan :
    (determineNextSequential (fun _ _ => 0) 1 none (some [some 0])).nextIndex =
      none := by
  decide

/-- C7: `isWithinWorkingHours` is `true` whenever the feature is globally
disabled; otherwise it is `false` when the weekday's config is disabled
(regardless of any ranges), and with the weekday enabled it is `true` iff the
minute-of-day falls within at least one configured range, both bounds
inclusive. -/
theorem checkInWorkingHours_spec (settings : Settings) (dayOfWeek : Fin 7)
    (currentMinutes : Int) :
    (settings.workingHoursEnabled = false →
      checkInWorkingHours settings dayOfWeek currentMinutes = true) ∧
      (settings.workingHoursEnabled = true →
        (workingHoursFor settings dayOfWeek).enabled = false →
        checkInWorkingHours settings dayOfWeek currentMinutes = false) ∧
      (settings.workingHoursEnabled = true →
        (workingHoursFor settings dayOfWeek).enabled = true →
        (checkInWorkingHours settings dayOfWeek currentMinutes = true ↔
          ∃ range ∈ (workingHoursFor settings dayOfWeek).ranges,
            range.fromMinutes ≤ currentMinutes ∧
              currentMinutes ≤ range.toMinutes)) := by
  refine ⟨?_, ?_, ?_⟩
  · intro h
    simp [checkInWorkingHours, h]
  · intro h hday
    simp [checkInWorkingHours, h, hday]
  · intro h hday
    simp [checkInWorkingHours, h, hday, List.any_eq_true]

/-- Witness for C7: globally disabled working hours accept any time; a
disabled Sunday rejects a time its ranges would not even describe. -/
theorem checkInWorkingHours_spec_witness :
    checkInWorkingHours { sampleSettings with workingHoursEnabled := false }
        1 100 = true ∧
      checkInWorkingHours sampleSettings 0 600 = false :=
  ⟨(checkInWorkingHours_spec
      { sampleSettings with workingHoursEnabled := false } 1 100).1 rfl,
    (checkInWorkingHours_spec sampleSettings 0 600).2.1 rfl rfl⟩

/-- C10: with tracking in progress, `completeBreakTracking(durationMs)`
records a completed break (last-completed timestamp updated, skipped flag
cleared, so `getTimeSinceLastBreak` is `null`) iff `durationMs` is at least
half the required duration (`requiredSeconds * 500` ms); a shorter duration
sets the skipped flag instead, making `getTimeSinceLastBreak` report whole
seconds since the last completed break; with no tracking in progress nothing
changes. -/
theorem completeBreakTracking_spec (settings : Settings) (d now : Int)
    (s : BreakTimerState) :
    (s.currentBreakStartTime = none →
      completeBreakTracking settings d now s = s) ∧
      (s.currentBreakStartTime ≠ none →
        (getBreakLengthSeconds settings s * 500 ≤ d →
          completeBreakTracking settings d now s =
            { s with
              lastCompletedBreakTime := now,
              hasSkippedOrSnoozedSinceLastBreak := false,
              currentBreakStartTime := none } ∧
          ∀ t : Int,
            getTimeSinceLastBreak t (completeBreakTracking settings d now s) =
              none) ∧
        (d < getBreakLengthSeconds settings s * 500 →
          completeBreakTracking settings d now s =
            { s with
              hasSkippedOrSnoozedSinceLastBreak := true,
              currentBreakStartTime := none } ∧
          ∀ t : Int,
            getTimeSinceLastBreak t (completeBreakTracking settings d now s) =
              some ((t - s.lastCompletedBreakTime) / 1000))) := by
  constructor
  · intro h
    simp [completeBreakTracking, h]
  · intro h
    cases hstart : s.currentBreakStartTime with
    | none => exact absurd hstart h
    | some start =>
      constructor
      · intro hge
        have hco : completeBreakTracking settings d now s =
            { s with
              lastCompletedBreakTime := now,
              hasSkippedOrSnoozedSinceLastBreak := false,
              currentBreakStartTime := none } := by
          simp [completeBreakTracking, hstart, if_pos hge]
        refine ⟨hco, ?_⟩
        intro t
        rw [hco]
        simp [getTimeSinceLastBreak]
      · intro hlt
        have hco : completeBreakTracking settings d now s =
            { s with
              hasSkippedOrSnoozedSinceLastBreak := true,
              currentBreakStartTime := none } := by
          simp [completeBreakTracking, hstart]
          omega
        refine ⟨hco, ?_⟩
        intro t
        rw [hco]
        simp [getTimeSinceLastBreak]

/-- Witness for C10: a 60-second tracked break against the 120-second
requirement is exactly half, so it is recorded as completed. -/
theorem completeBreakTracking_spec_witness :
    completeBreakTracking sampleSettings 60000 99
        { initialBreakTimerState with currentBreakStartTime := some 5 } =
      { { initialBreakTimerState with currentBreakStartTime := some 5 } with
        lastCompletedBreakTime := 99,
        hasSkippedOrSnoozedSinceLastBreak := false,
        currentBreakStartTime := none } :=
  (((completeBreakTracking_spec sampleSettings 60000 99
      { initialBreakTimerState with currentBreakStartTime := some 5 }).2
    (by decide)).1 (by decide)).1

/-- C6 (amended): with a positive postpone limit already reached,
`postponeBreak` is a rejected no-op (state bit-for-bit unchanged, no
reschedule) and `getAllowPostpone` reports `false`. Otherwise it increments
`postponedCount` — except that a pending idle period makes the reschedule
treat the idle time as an implicit completed break and reset the count to
`0` — clears the active-break bookkeeping, and schedules
`now + seconds * 1000` with the postpone length for "snoozed" (any non-"skipped"
action) or the normal frequency for "skipped", each floored at one second. -/
theorem postponeBreak_spec (action : String) (settings : Settings) (now : Int)
    (s : BreakTimerState) :
    (settings.postponeLimit ≠ 0 → settings.postponeLimit ≤ s.postponedCount →
      postponeBreak action settings now s = s ∧
        getAllowPostpone settings s = false) ∧
      (¬ (settings.postponeLimit ≠ 0 ∧
            settings.postponeLimit ≤ s.postponedCount) →
        (postponeBreak action settings now s).postponedCount =
            (if s.idleStart = none then s.postponedCount + 1 else 0) ∧
          (postponeBreak action settings now s).havingBreak = false ∧
          (postponeBreak action settings now s).currentBreakEndTimestamp =
            none ∧
          (postponeBreak action settings now s).currentBreakRemainingMs =
            none ∧
          (postponeBreak action settings now s).currentBreakTotalDurationMs =
            none ∧
          (postponeBreak action settings now s).breakCountdownPaused = false ∧
          (postponeBreak action settings now s).breakMessageHistory = [] ∧
          (postponeBreak action settings now s).breakTime =
            some (now +
              getSecondsFromSettings
                  (if action = "skipped" then settings.breakFrequencySeconds
                  else settings.postponeLengthSeconds) *
                1000)) := by
  constructor
  · intro hne hle
    constructor
    · simp [postponeBreak, hne, hle]
    · simp [getAllowPostpone, hne]
      omega
  · intro hcond
    have hstep : postponeBreak action settings now s =
        (if action = "skipped" then
          scheduleNextBreak false settings now
            { resetCurrentBreakTimerState
                { s with
                  postponedCount := s.postponedCount + 1,
                  havingBreak := false } with
              hasSkippedOrSnoozedSinceLastBreak := true }
        else
          scheduleNextBreak true settings now
            { resetCurrentBreakTimerState
                { s with
                  postponedCount := s.postponedCount + 1,
                  havingBreak := false } with
              hasSkippedOrSnoozedSinceLastBreak := true }) := by
      rw [postponeBreak, if_neg hcond]
    cases hidle : s.idleStart with
    | none =>
      rw [hstep]
      by_cases ha : action = "skipped" <;>
        simp [ha, scheduleNextBreak, resetCurrentBreakTimerState,
          clearBreakMessageHistory, hidle]
    | some t0 =>
      rw [hstep]
      by_cases ha : action = "skipped" <;>
        simp [ha, scheduleNextBreak, resetCurrentBreakTimerState,
          clearBreakMessageHistory, hidle]

/-- Witness for C6 (amended): with `postponeLimit = 2` already reached,
postponing is rejected and `get-allow-postpone` reports `false`. -/
theorem postponeBreak_spec_witness :
    postponeBreak "snoozed" sampleSettings 0
          { initialBreakTimerState with postponedCount := 2 } =
        { initialBreakTimerState with postponedCount := 2 } ∧
      getAllowPostpone sampleSettings
          { initialBreakTimerState with postponedCount := 2 } =
        false :=
  (postponeBreak_spec "snoozed" sampleSettings 0
      { initialBreakTimerState with postponedCount := 2 }).1
    (by decide) (by decide)

/-- C6 counterexample: an allowed postpone issued while an idle period is
pending ends with `postponedCount = 0`, not incremented (the reschedule
treats pending idle as an implicit completed break). -/
theorem postponeBreak_idle_pending_resets_count :
    (postponeBreak "snoozed" sampleSettings 1000
          { initialBreakTimerState with idleStart := some 50 }).postponedCount =
        0 ∧
      ({ initialBreakTimerState with
          idleStart := some 50 }).postponedCount + 1 ≠ 0 := by
  decide

/-- C9 (amended): with no break active, pause, resume, and adjust-duration
are rejected logged no-ops returning `null` with the state bit-for-bit
unchanged; the message navigation operations also leave the state unchanged
but return a snapshot (current message clone, resolved fallback duration, and
navigation flags) rather than a null/empty result. -/
theorem inactiveBreakOps_noop (settings : Settings) (rand : Nat → Nat → Nat)
    (now : Int) (deltaMs : Option Int) (s : BreakTimerState)
    (h : s.havingBreak = false) :
    pauseActiveBreak now s = (s, none) ∧
      resumeActiveBreak now s = (s, none) ∧
      adjustActiveBreakDuration deltaMs now s = (s, none) ∧
      skipCurrentBreakMessage rand settings now s =
        (s, createBreakMessageSwitchResult
          (resolveMessageDurationMs settings s.currentBreakMessage) settings s) ∧
      goToPreviousBreakMessage settings now s =
        (s, createBreakMessageSwitchResult
          (resolveMessageDurationMs settings s.currentBreakMessage) settings
          s) := by
  refine ⟨?_, ?_, ?_, ?_, ?_⟩
  · simp [pauseActiveBreak, h]
  · simp [resumeActiveBreak, h]
  · simp [adjustActiveBreakDuration, h]
  · simp [skipCurrentBreakMessage, h]
  · simp [goToPreviousBreakMessage, h]

/-- Witness for C9 (amended) on the initial (inactive) state. -/
theorem inactiveBreakOps_noop_witness :
    pauseActiveBreak 7 initialBreakTimerState =
        (initialBreakTimerState, none) ∧
      resumeActiveBreak 7 initialBreakTimerState =
        (initialBreakTimerState, none) ∧
      adjustActiveBreakDuration (some 5000) 7 initialBreakTimerState =
        (initialBreakTimerState, none) ∧
      skipCurrentBreakMessage (fun _ _ => 0) sampleSettings 7
          initialBreakTimerState =
        (initialBreakTimerState,
          createBreakMessageSwitchResult
            (resolveMessageDurationMs sampleSettings
              initialBreakTimerState.currentBreakMessage)
            sampleSettings initialBreakTimerState) ∧
      goToPreviousBreakMessage sampleSettings 7 initialBreakTimerState =
        (initialBreakTimerState,
          createBreakMessageSwitchResult
            (resolveMessageDurationMs sampleSettings
              initialBreakTimerState.currentBreakMessage)
            sampleSettings initialBreakTimerState) :=
  inactiveBreakOps_noop sampleSettings (fun _ _ => 0) 7 (some 5000)
    initialBreakTimerState rfl

/-- C9 counterexample: with no break active but a current message left over
and a multi-message pool, the next-message operation returns a snapshot whose
message is non-null and whose `hasNext` flag is `true` — not a null/empty
result. -/
theorem skip_inactive_returns_nonempty_snapshot :
    ((skipCurrentBreakMessage (fun _ _ => 0)
          { sampleSettings with
            breakMessages :=
              some [BreakMessageInput.content sampleMessage,
                BreakMessageInput.str "stretch"] }
          0
          { initialBreakTimerState with
            currentBreakMessage := some sampleMessage }).2).message =
        some sampleMessage ∧
      ((skipCurrentBreakMessage (fun _ _ => 0)
          { sampleSettings with
            breakMessages :=
              some [BreakMessageInput.content sampleMessage,
                BreakMessageInput.str "stretch"] }
          0
          { initialBreakTimerState with
            currentBreakMessage := some sampleMessage }).2).hasNext =
        true := by
  decide

/-- C5: for an active running break, `pause()` immediately followed by
`resume()` at the same instant leaves `remainingMs` unchanged: pause returns
remaining `r` (captured from the live countdown) and stores it; if `r > 0`,
resume restarts the countdown with a fresh end timestamp whose implied
remaining time `e - now` equals `r`, leaving the stored remaining time at
`r`; if `r = 0`, resume refuses without mutating, so the stored remaining
time is still `r`. And `pause()` while already paused returns the current
remaining/total without mutating any break state. -/
theorem pause_resume_roundtrip (now : Int) (s : BreakTimerState)
    (hActive : s.havingBreak = true) :
    (s.breakCountdownPaused = false →
      ∃ r tot,
        pauseActiveBreak now s =
          ({ s with
              currentBreakRemainingMs := some r,
              currentBreakEndTimestamp := none,
              breakCountdownPaused := true }, some (r, tot)) ∧
        (resumeActiveBreak now
            (pauseActiveBreak now s).1).1.currentBreakRemainingMs = some r ∧
        (0 < r →
          ∃ e tot2,
            resumeActiveBreak now (pauseActiveBreak now s).1 =
              ({ (pauseActiveBreak now s).1 with
                  currentBreakEndTimestamp := some e,
                  breakCountdownPaused := false }, some (e, tot2)) ∧
            e - now = r) ∧
        (r ≤ 0 →
          resumeActiveBreak now (pauseActiveBreak now s).1 =
            ((pauseActiveBreak now s).1, none))) ∧
      (s.breakCountdownPaused = true →
        pauseActiveBreak now s =
          (s, some (s.currentBreakRemainingMs.getD 0,
            s.currentBreakTotalDurationMs.getD 0))) := by
  constructor
  · intro hrun
    refine ⟨if jsTruthyNum s.currentBreakEndTimestamp then
        max 0 (s.currentBreakEndTimestamp.getD 0 - now)
      else s.currentBreakRemainingMs.getD 0, ?_, ?_, ?_, ?_, ?_⟩
    · exact s.currentBreakTotalDurationMs.getD
        (if jsTruthyNum s.currentBreakEndTimestamp then
          max 0 (s.currentBreakEndTimestamp.getD 0 - now)
        else s.currentBreakRemainingMs.getD 0)
    · simp [pauseActiveBreak, hActive, hrun]
    · have hpause : (pauseActiveBreak now s).1 =
          { s with
            currentBreakRemainingMs :=
              some (if jsTruthyNum s.currentBreakEndTimestamp then
                max 0 (s.currentBreakEndTimestamp.getD 0 - now)
              else s.currentBreakRemainingMs.getD 0),
            currentBreakEndTimestamp := none,
            breakCountdownPaused := true } := by
        simp [pauseActiveBreak, hActive, hrun]
      rw [hpause]
      by_cases hr : (if jsTruthyNum s.currentBreakEndTimestamp then
          max 0 (s.currentBreakEndTimestamp.getD 0 - now)
        else s.currentBreakRemainingMs.getD 0) ≤ 0
      · simp [resumeActiveBreak, hActive, hr]
      · simp [resumeActiveBreak, hActive, hr]
    · intro hrpos
      have hpause : (pauseActiveBreak now s).1 =
          { s with
            currentBreakRemainingMs :=
              some (if jsTruthyNum s.currentBreakEndTimestamp then
                max 0 (s.currentBreakEndTimestamp.getD 0 - now)
              else s.currentBreakRemainingMs.getD 0),
            currentBreakEndTimestamp := none,
            breakCountdownPaused := true } := by
        simp [pauseActiveBreak, hActive, hrun]
      refine ⟨now + (if jsTruthyNum s.currentBreakEndTimestamp then
          max 0 (s.currentBreakEndTimestamp.getD 0 - now)
        else s.currentBreakRemainingMs.getD 0),
        s.currentBreakTotalDurationMs.getD
          (if jsTruthyNum s.currentBreakEndTimestamp then
            max 0 (s.currentBreakEndTimestamp.getD 0 - now)
          else s.currentBreakRemainingMs.getD 0), ?_, by ring⟩
      rw [hpause]
      simp [resumeActiveBreak, hActive]
      omega
    · intro hr0
      have hpause : (pauseActiveBreak now s).1 =
          { s with
            currentBreakRemainingMs :=
              some (if jsTruthyNum s.currentBreakEndTimestamp then
                max 0 (s.currentBreakEndTimestamp.getD 0 - now)
              else s.currentBreakRemainingMs.getD 0),
            currentBreakEndTimestamp := none,
            breakCountdownPaused := true } := by
        simp [pauseActiveBreak, hActive, hrun]
      rw [hpause]
      simp [resumeActiveBreak, hActive, hr0]
  · intro hpaused
    simp [pauseActiveBreak, hActive, hpaused]

/-- Witness for C5: pausing the running fixture break at time 1000 captures
4000 ms; resuming at the same instant restores the same remaining time. -/
theorem pause_resume_roundtrip_witness :
    (resumeActiveBreak 1000
        (pauseActiveBreak 1000 sampleActiveBreak).1).1.currentBreakRemainingMs =
      some 4000 := by
  obtain ⟨r, tot, h1, hrem, hpos, hzero⟩ :=
    (pause_resume_roundtrip 1000 sampleActiveBreak rfl).1 rfl
  have h2 : (pauseActiveBreak 1000 sampleActiveBreak).2 = some (r, tot) := by
    rw [h1]
  have h3 : (pauseActiveBreak 1000 sampleActiveBreak).2 =
      some (4000, 120000) := by decide
  rw [h3] at h2
  have h4 : r = 4000 := by
    simpa using congrArg (fun p => (p.getD (0, 0)).1) h2.symm
  rw [hrem, h4]

theorem updateCurrentHistoryEntryDuration_countdown_fields (d : Int)
    (s2 : BreakTimerState) :
    (updateCurrentHistoryEntryDuration d s2).currentBreakTotalDurationMs =
        s2.currentBreakTotalDurationMs ∧
      (updateCurrentHistoryEntryDuration d s2).currentBreakRemainingMs =
        s2.currentBreakRemainingMs ∧
      (updateCurrentHistoryEntryDuration d s2).currentBreakEndTimestamp =
        s2.currentBreakEndTimestamp := by
  unfold updateCurrentHistoryEntryDuration
  split
  · exact ⟨rfl, rfl, rfl⟩
  · split
    · exact ⟨rfl, rfl, rfl⟩
    · exact ⟨rfl, rfl, rfl⟩

/-- Branch-free description of `adjustActiveBreakDuration` on an active break
with a nonzero delta, in terms of `adjustedTotalOf` and `adjustBaseOf`. -/
theorem adjustActiveBreakDuration_eq (deltaMs now : Int) (s : BreakTimerState)
    (hActive : s.havingBreak = true) (hdelta : deltaMs ≠ 0) :
    adjustActiveBreakDuration (some deltaMs) now s =
      (if s.breakCountdownPaused then
        (if min (adjustedTotalOf deltaMs s)
            (max 0 (adjustBaseOf deltaMs now s + deltaMs)) = 0 then
          ({ updateCurrentHistoryEntryDuration (adjustedTotalOf deltaMs s)
              { s with
                currentBreakTotalDurationMs := some (adjustedTotalOf deltaMs s),
                currentBreakRemainingMs :=
                  some (min (adjustedTotalOf deltaMs s)
                    (max 0 (adjustBaseOf deltaMs now s + deltaMs))) } with
            currentBreakEndTimestamp := some now,
            breakCountdownPaused := false },
            some (AdjustChannel.breakStart, now, adjustedTotalOf deltaMs s))
        else
          ({ updateCurrentHistoryEntryDuration (adjustedTotalOf deltaMs s)
              { s with
                currentBreakTotalDurationMs := some (adjustedTotalOf deltaMs s),
                currentBreakRemainingMs :=
                  some (min (adjustedTotalOf deltaMs s)
                    (max 0 (adjustBaseOf deltaMs now s + deltaMs))) } with
            currentBreakEndTimestamp := none,
            breakCountdownPaused := true },
            some (AdjustChannel.breakPause,
              min (adjustedTotalOf deltaMs s)
                (max 0 (adjustBaseOf deltaMs now s + deltaMs)),
              adjustedTotalOf deltaMs s)))
      else
        (if min (adjustedTotalOf deltaMs s)
            (max 0 (adjustBaseOf deltaMs now s + deltaMs)) = 0 then
          ({ updateCurrentHistoryEntryDuration (adjustedTotalOf deltaMs s)
              { s with
                currentBreakTotalDurationMs := some (adjustedTotalOf deltaMs s),
                currentBreakRemainingMs :=
                  some (min (adjustedTotalOf deltaMs s)
                    (max 0 (adjustBaseOf deltaMs now s + deltaMs))) } with
            currentBreakEndTimestamp := some now,
            breakCountdownPaused := false },
            some (AdjustChannel.breakStart, now, adjustedTotalOf deltaMs s))
        else
          ({ updateCurrentHistoryEntryDuration (adjustedTotalOf deltaMs s)
              { s with
                currentBreakTotalDurationMs := some (adjustedTotalOf deltaMs s),
                currentBreakRemainingMs :=
                  some (min (adjustedTotalOf deltaMs s)
                    (max 0 (adjustBaseOf deltaMs now s + deltaMs))) } with
            currentBreakEndTimestamp :=
              some (now +
                min (adjustedTotalOf deltaMs s)
                  (max 0 (adjustBaseOf deltaMs now s + deltaMs))),
            breakCountdownPaused := false },
            some (AdjustChannel.breakStart,
              now +
                min (adjustedTotalOf deltaMs s)
                  (max 0 (adjustBaseOf deltaMs now s + deltaMs)),
              adjustedTotalOf deltaMs s)))) := by
    simp only [adjustActiveBreakDuration, hActive, Bool.not_true,
      Bool.false_eq_true, if_false, Option.getD_some, hdelta, if_false]
    have htoteq :
        (if max 1000 (s.currentBreakTotalDurationMs.getD 1000) + deltaMs <
            1000 then (1000 : Int)
        else max 1000 (s.currentBreakTotalDurationMs.getD 1000) + deltaMs) =
          adjustedTotalOf deltaMs s := by
      unfold adjustedTotalOf
      split <;> omega
    rw [htoteq]
    by_cases hp : s.breakCountdownPaused = true
    · simp only [if_pos hp]
      have hbaseeq :
          max 0 (s.currentBreakRemainingMs.getD (adjustedTotalOf deltaMs s)) =
            adjustBaseOf deltaMs now s := by
        unfold adjustBaseOf
        rw [if_pos hp]
      rw [hbaseeq]
      have hremeq :
          (if adjustedTotalOf deltaMs s <
              (if adjustBaseOf deltaMs now s + deltaMs < 0 then (0 : Int)
              else adjustBaseOf deltaMs now s + deltaMs) then
            adjustedTotalOf deltaMs s
          else
            (if adjustBaseOf deltaMs now s + deltaMs < 0 then (0 : Int)
            else adjustBaseOf deltaMs now s + deltaMs)) =
            min (adjustedTotalOf deltaMs s)
              (max 0 (adjustBaseOf deltaMs now s + deltaMs)) := by
        rcases lt_or_le (adjustBaseOf deltaMs now s + deltaMs) 0 with h | h
        · simp only [if_pos h]
          rw [if_neg (by omega)]
          omega
        · simp only [if_neg (not_lt.mpr h)]
          split <;> omega
      rw [hremeq]
    · simp only [if_neg hp]
      have hbaseeq :
          (if jsTruthyNum s.currentBreakEndTimestamp = true then
            max 0 (s.currentBreakEndTimestamp.getD 0 - now)
          else
            max 0 (s.currentBreakRemainingMs.getD
              (adjustedTotalOf deltaMs s))) =
            adjustBaseOf deltaMs now s := by
        unfold adjustBaseOf
        rw [if_neg hp]
      rw [hbaseeq]
      have hremeq :
          (if adjustedTotalOf deltaMs s <
              (if adjustBaseOf deltaMs now s + deltaMs < 0 then (0 : Int)
              else adjustBaseOf deltaMs now s + deltaMs) then
            adjustedTotalOf deltaMs s
          else
            (if adjustBaseOf deltaMs now s + deltaMs < 0 then (0 : Int)
            else adjustBaseOf deltaMs now s + deltaMs)) =
            min (adjustedTotalOf deltaMs s)
              (max 0 (adjustBaseOf deltaMs now s + deltaMs)) := by
        rcases lt_or_le (adjustBaseOf deltaMs now s + deltaMs) 0 with h | h
        · simp only [if_pos h]
          rw [if_neg (by omega)]
          omega
        · simp only [if_neg (not_lt.mpr h)]
          split <;> omega
      rw [hremeq]

theorem adjustActiveBreakDuration_fields (deltaMs now : Int)
    (s : BreakTimerState) (hActive : s.havingBreak = true)
    (hdelta : deltaMs ≠ 0) :
    (adjustActiveBreakDuration (some deltaMs) now
          s).1.currentBreakTotalDurationMs =
        some (adjustedTotalOf deltaMs s) ∧
      (adjustActiveBreakDuration (some deltaMs) now
            s).1.currentBreakRemainingMs =
        some (min (adjustedTotalOf deltaMs s)
          (max 0 (adjustBaseOf deltaMs now s + deltaMs))) ∧
      (∀ e, (adjustActiveBreakDuration (some deltaMs) now
            s).1.currentBreakEndTimestamp = some e →
        e = now ∨
          e = now + min (adjustedTotalOf deltaMs s)
            (max 0 (adjustBaseOf deltaMs now s + deltaMs))) ∧
      (min (adjustedTotalOf deltaMs s)
            (max 0 (adjustBaseOf deltaMs now s + deltaMs)) = 0 →
        (adjustActiveBreakDuration (some deltaMs) now s).2 =
            some (AdjustChannel.breakStart, now, adjustedTotalOf deltaMs s) ∧
          (adjustActiveBreakDuration (some deltaMs) now
              s).1.currentBreakEndTimestamp = some now ∧
          (adjustActiveBreakDuration (some deltaMs) now
              s).1.breakCountdownPaused = false) := by
  have hupd := updateCurrentHistoryEntryDuration_countdown_fields
  have hco := adjustActiveBreakDuration_eq deltaMs now s hActive hdelta
  rw [hco]
  by_cases hp : s.breakCountdownPaused = true
  · rw [if_pos hp]
    by_cases h0 : min (adjustedTotalOf deltaMs s)
        (max 0 (adjustBaseOf deltaMs now s + deltaMs)) = 0
    · rw [if_pos h0]
      refine ⟨by simp [(hupd _ _).1], by simp [(hupd _ _).2.1], ?_,
        fun _ => ⟨rfl, rfl, rfl⟩⟩
      intro e he
      simp only [Option.some.injEq] at he
      exact Or.inl he.symm
    · rw [if_neg h0]
      refine ⟨by simp [(hupd _ _).1], by simp [(hupd _ _).2.1], ?_,
        fun hX => absurd hX h0⟩
      intro e he
      simp at he
  · rw [if_neg hp]
    by_cases h0 : min (adjustedTotalOf deltaMs s)
        (max 0 (adjustBaseOf deltaMs now s + deltaMs)) = 0
    · rw [if_pos h0]
      refine ⟨by simp [(hupd _ _).1], by simp [(hupd _ _).2.1], ?_,
        fun _ => ⟨rfl, rfl, rfl⟩⟩
      intro e he
      simp only [Option.some.injEq] at he
      exact Or.inl he.symm
    · rw [if_neg h0]
      refine ⟨by simp [(hupd _ _).1], by simp [(hupd _ _).2.1], ?_,
        fun hX => absurd hX h0⟩
      intro e he
      simp only [Option.some.injEq] at he
      exact Or.inr he.symm

/-- C4: for an active break and a nonzero finite delta,
`adjustDuration(deltaMs)` installs total `max 1000 (effectiveTotal + delta)`
(a 1000 ms floor) and a remaining time equal to the derived remaining time
plus the delta clamped into `[0, total]`; in particular, when
`remaining + delta < 0` the stored remaining time becomes exactly `0` and the
operation takes the natural-completion path: a break-start payload whose end
timestamp is `now`, with the countdown unpaused — not an error. -/
theorem adjustActiveBreakDuration_spec (deltaMs now : Int)
    (s : BreakTimerState) (hActive : s.havingBreak = true)
    (hdelta : deltaMs ≠ 0) :
    (adjustActiveBreakDuration (some deltaMs) now
          s).1.currentBreakTotalDurationMs =
        some (adjustedTotalOf deltaMs s) ∧
      (adjustActiveBreakDuration (some deltaMs) now
            s).1.currentBreakRemainingMs =
        some (min (adjustedTotalOf deltaMs s)
          (max 0 (adjustBaseOf deltaMs now s + deltaMs))) ∧
      1000 ≤ adjustedTotalOf deltaMs s ∧
      0 ≤ min (adjustedTotalOf deltaMs s)
          (max 0 (adjustBaseOf deltaMs now s + deltaMs)) ∧
      min (adjustedTotalOf deltaMs s)
          (max 0 (adjustBaseOf deltaMs now s + deltaMs)) ≤
        adjustedTotalOf deltaMs s ∧
      (adjustBaseOf deltaMs now s + deltaMs < 0 →
        (adjustActiveBreakDuration (some deltaMs) now
              s).1.currentBreakRemainingMs = some 0 ∧
          (adjustActiveBreakDuration (some deltaMs) now s).2 =
            some (AdjustChannel.breakStart, now, adjustedTotalOf deltaMs s) ∧
          (adjustActiveBreakDuration (some deltaMs) now
              s).1.currentBreakEndTimestamp = some now ∧
          (adjustActiveBreakDuration (some deltaMs) now
              s).1.breakCountdownPaused = false) := by
  obtain ⟨h1, h2, hend, hzero⟩ :=
    adjustActiveBreakDuration_fields deltaMs now s hActive hdelta
  have htot : 1000 ≤ adjustedTotalOf deltaMs s := le_max_left _ _
  refine ⟨h1, h2, htot, ?_, min_le_left _ _, ?_⟩
  · positivity
  · intro hneg
    have hmin0 : min (adjustedTotalOf deltaMs s)
        (max 0 (adjustBaseOf deltaMs now s + deltaMs)) = 0 := by
      rw [max_eq_left (by omega), min_eq_right (by omega)]
    obtain ⟨hres, hendv, hpf⟩ := hzero hmin0
    exact ⟨by rw [h2, hmin0], hres, hendv, hpf⟩

/-- Witness for C4: shrinking the paused fixture break (4000 ms remaining
after a pause at time 1000) by 10 seconds drives the remaining time to 0 and
emits the break-start completion payload with end timestamp `now`. -/
theorem adjustActiveBreakDuration_spec_witness :
    (adjustActiveBreakDuration (some (-10000)) 2000
          (pauseActiveBreak 1000 sampleActiveBreak).1).2 =
      some (AdjustChannel.breakStart, 2000,
        adjustedTotalOf (-10000) (pauseActiveBreak 1000 sampleActiveBreak).1) :=
  ((adjustActiveBreakDuration_spec (-10000) 2000
        (pauseActiveBreak 1000 sampleActiveBreak).1 (by decide)
        (by decide)).2.2.2.2.2 (by decide)).2.1

theorem countdownInv_iff (s : BreakTimerState) (t : Int) :
    countdownInv s t = true ↔
      ∃ tot, s.currentBreakTotalDurationMs = some tot ∧ 0 ≤ tot ∧
        (∀ r, s.currentBreakRemainingMs = some r → 0 ≤ r ∧ r ≤ tot) ∧
        (∀ e, s.currentBreakEndTimestamp = some e → e ≤ t + tot) := by
  unfold countdownInv
  cases htot : s.currentBreakTotalDurationMs with
  | none => simp
  | some tot =>
    cases hrem : s.currentBreakRemainingMs with
    | none =>
      cases hend : s.currentBreakEndTimestamp with
      | none => simp
      | some e => simp
    | some r =>
      cases hend : s.currentBreakEndTimestamp with
      | none => simp
      | some e => simp; omega

theorem countdownInv_mono {s : BreakTimerState} {t t2 : Int}
    (h : countdownInv s t = true) (hle : t ≤ t2) : countdownInv s t2 = true := by
  rw [countdownInv_iff] at h ⊢
  obtain ⟨tot, h1, h2, h3, h4⟩ := h
  refine ⟨tot, h1, h2, h3, fun e he => ?_⟩
  have := h4 e he
  omega

theorem countdownInv_pauseActiveBreak (now t : Int) (s : BreakTimerState)
    (h : countdownInv s t = true) (hle : t ≤ now) :
    countdownInv (pauseActiveBreak now s).1 now = true := by
  have h2 := countdownInv_mono h hle
  rw [countdownInv_iff] at h2
  obtain ⟨tot, htot, htot0, hrem, hend⟩ := h2
  unfold pauseActiveBreak
  by_cases hb : s.havingBreak = true
  · simp only [hb, Bool.not_true, Bool.false_eq_true, if_false]
    by_cases hp : s.breakCountdownPaused = true
    · simp only [hp, if_true]
      exact countdownInv_mono h hle
    · simp only [hp, Bool.false_eq_true, if_false]
      rw [countdownInv_iff]
      refine ⟨tot, by simp [htot], htot0, ?_, by simp⟩
      intro r hr
      simp only [Option.some.injEq] at hr
      subst hr
      by_cases he : jsTruthyNum s.currentBreakEndTimestamp = true
      · rw [if_pos he]
        cases hE : s.currentBreakEndTimestamp with
        | none => simp [jsTruthyNum, hE] at he
        | some e =>
          have := hend e hE
          simp only [hE, Option.getD_some]
          omega
      · rw [if_neg he]
        cases hR : s.currentBreakRemainingMs with
        | none => simp; omega
        | some r0 =>
          have := hrem r0 hR
          simp only [Option.getD_some]
          omega
  · simp only [hb]
    simpa using countdownInv_mono h hle

theorem countdownInv_resumeActiveBreak (now t : Int) (s : BreakTimerState)
    (h : countdownInv s t = true) (hle : t ≤ now) :
    countdownInv (resumeActiveBreak now s).1 now = true := by
  have h2 := countdownInv_mono h hle
  rw [countdownInv_iff] at h2
  obtain ⟨tot, htot, htot0, hrem, hend⟩ := h2
  unfold resumeActiveBreak
  by_cases hb : s.havingBreak = true
  · simp only [hb, Bool.not_true, Bool.false_eq_true, if_false]
    by_cases hp : s.breakCountdownPaused = true
    · simp only [hp, Bool.not_true, Bool.false_eq_true, if_false]
      by_cases hr0 : s.currentBreakRemainingMs.getD
          (s.currentBreakTotalDurationMs.getD 0) ≤ 0
      · rw [if_pos hr0]
        exact countdownInv_mono h hle
      · rw [if_neg hr0]
        rw [countdownInv_iff]
        refine ⟨tot, by simp [htot], htot0, ?_, ?_⟩
        · intro r hr
          exact hrem r hr
        · intro e he
          simp only [Option.some.injEq] at he
          cases hR : s.currentBreakRemainingMs with
          | none =>
            rw [hR, Option.getD_none, htot, Option.getD_some] at he
            omega
          | some r0 =>
            have := hrem r0 hR
            rw [hR, Option.getD_some] at he
            omega
    · simp only [hp, Bool.not_false, if_true]
      rw [countdownInv_iff]
      refine ⟨tot, by simp [htot], htot0, fun r hr => hrem r hr, ?_⟩
      intro e he
      simp only [Option.some.injEq] at he
      cases hE : s.currentBreakEndTimestamp with
      | none =>
        rw [hE, Option.getD_none] at he
        cases hR : s.currentBreakRemainingMs with
        | none =>
          rw [hR] at he
          simp at he
          omega
        | some r0 =>
          have := hrem r0 hR
          rw [hR, Option.getD_some] at he
          omega
      | some e0 =>
        have := hend e0 hE
        rw [hE, Option.getD_some] at he
        omega
  · simp only [hb]
    simpa using countdownInv_mono h hle

theorem countdownInv_beginBreakCountdown (settings : Settings) (now t : Int)
    (s : BreakTimerState) (h : countdownInv s t = true) (hle : t ≤ now) :
    countdownInv (beginBreakCountdown settings now s).1 now = true := by
  have h2 := countdownInv_mono h hle
  rw [countdownInv_iff] at h2
  obtain ⟨tot, htot, htot0, hrem, hend⟩ := h2
  unfold beginBreakCountdown
  by_cases hb : s.havingBreak = true
  · simp only [hb, Bool.not_true, Bool.false_eq_true, if_false, htot,
      Option.getD_some]
    by_cases hp : s.breakCountdownPaused = true
    · simp only [hp, if_true]
      rw [countdownInv_iff]
      refine ⟨tot, by simp, htot0, ?_, ?_⟩
      · intro r hr
        simp only [Option.some.injEq] at hr
        subst hr
        cases hR : s.currentBreakRemainingMs with
        | none => simp; omega
        | some r0 =>
          have := hrem r0 hR
          simp only [Option.getD_some]
          omega
      · intro e he
        simp only [Option.some.injEq] at he
        cases hR : s.currentBreakRemainingMs with
        | none =>
          rw [hR, Option.getD_none] at he
          omega
        | some r0 =>
          have := hrem r0 hR
          rw [hR, Option.getD_some] at he
          omega
    · simp only [hp, Bool.false_eq_true, if_false]
      by_cases he : jsTruthyNum s.currentBreakEndTimestamp = true
      · rw [if_pos he]
        rw [countdownInv_iff]
        refine ⟨tot, by simp, htot0, ?_, ?_⟩
        · intro r hr
          simp only [Option.some.injEq] at hr
          subst hr
          cases hE : s.currentBreakEndTimestamp with
          | none => simp [jsTruthyNum, hE] at he
          | some e0 =>
            have := hend e0 hE
            simp only [hE, Option.getD_some]
            omega
        · intro e0 hE
          simp only at hE
          have := hend e0 hE
          omega
      · rw [if_neg he]
        rw [countdownInv_iff]
        refine ⟨tot, by simp, htot0, ?_, ?_⟩
        · intro r hr
          simp only [Option.some.injEq] at hr
          omega
        · intro e0 hE
          simp only [Option.some.injEq] at hE
          omega
  · simp only [hb]
    simpa using countdownInv_mono h hle

theorem countdownInv_applyBreakMessageEntry (entry : BreakMessageHistoryEntry)
    (settings : Settings) (now : Int) (s : BreakTimerState) :
    countdownInv (applyBreakMessageEntry entry settings now s).1 now = true := by
  unfold applyBreakMessageEntry
  by_cases hp : s.breakCountdownPaused = true
  · simp only [hp, if_true]
    rw [countdownInv_iff]
    refine ⟨max 1 entry.durationMs, by simp, by omega, ?_, by simp⟩
    intro r hr
    simp only [Option.some.injEq] at hr
    omega
  · simp only [hp, Bool.false_eq_true, if_false]
    rw [countdownInv_iff]
    refine ⟨max 1 entry.durationMs, by simp, by omega, ?_, ?_⟩
    · intro r hr
      simp only [Option.some.injEq] at hr
      omega
    · intro e he
      simp only [Option.some.injEq] at he
      omega

theorem recordBreakMessageInHistory_countdown_fields
    (message : Option BreakMessageContent) (durationMs : Int)
    (s : BreakTimerState) :
    (recordBreakMessageInHistory message durationMs
          s).currentBreakTotalDurationMs = s.currentBreakTotalDurationMs ∧
      (recordBreakMessageInHistory message durationMs
          s).currentBreakRemainingMs = s.currentBreakRemainingMs ∧
      (recordBreakMessageInHistory message durationMs
          s).currentBreakEndTimestamp = s.currentBreakEndTimestamp := by
  unfold recordBreakMessageInHistory
  cases cloneBreakMessageContent message with
  | none => exact ⟨rfl, rfl, rfl⟩
  | some clone => exact ⟨rfl, rfl, rfl⟩

theorem countdownInv_congr (s1 s2 : BreakTimerState) (t : Int)
    (h1 : s1.currentBreakTotalDurationMs = s2.currentBreakTotalDurationMs)
    (h2 : s1.currentBreakRemainingMs = s2.currentBreakRemainingMs)
    (h3 : s1.currentBreakEndTimestamp = s2.currentBreakEndTimestamp) :
    countdownInv s1 t = countdownInv s2 t := by
  unfold countdownInv
  rw [h1, h2, h3]

theorem countdownInv_skipCurrentBreakMessage (rand : Nat → Nat → Nat)
    (settings : Settings) (now t : Int) (s : BreakTimerState)
    (h : countdownInv s t = true) (hle : t ≤ now) :
    countdownInv (skipCurrentBreakMessage rand settings now s).1 now = true := by
  unfold skipCurrentBreakMessage
  by_cases hb : s.havingBreak = true
  · simp only [hb, Bool.not_true, Bool.false_eq_true, if_false]
    cases hfe : getHistoryEntry (s.breakMessageHistoryIndex + 1) s with
    | some entry =>
      simpa using countdownInv_applyBreakMessageEntry entry settings now _
    | none =>
      simp only
      cases hce : getCurrentHistoryEntry
          (recordBreakMessageInHistory
            (some (updateCurrentBreakMessageFromSettings rand settings
              s).2.1)
            (resolveMessageDurationMs settings
              (some (updateCurrentBreakMessageFromSettings rand settings
                s).2.1))
            (updateCurrentBreakMessageFromSettings rand settings s).1) with
      | some currentEntry =>
        simpa [hce] using
          countdownInv_applyBreakMessageEntry currentEntry settings now _
      | none =>
        simp only [hce]
        have hrec := recordBreakMessageInHistory_countdown_fields
          (some (updateCurrentBreakMessageFromSettings rand settings s).2.1)
          (resolveMessageDurationMs settings
            (some (updateCurrentBreakMessageFromSettings rand settings
              s).2.1))
          (updateCurrentBreakMessageFromSettings rand settings s).1
        have hcongr := countdownInv_congr _ s now
          (by rw [hrec.1]; rfl) (by rw [hrec.2.1]; rfl) (by rw [hrec.2.2]; rfl)
        rw [hcongr]
        exact countdownInv_mono h hle
  · simp only [hb]
    simpa using countdownInv_mono h hle

theorem countdownInv_goToPreviousBreakMessage (settings : Settings)
    (now t : Int) (s : BreakTimerState) (h : countdownInv s t = true)
    (hle : t ≤ now) :
    countdownInv (goToPreviousBreakMessage settings now s).1 now = true := by
  unfold goToPreviousBreakMessage
  by_cases hb : s.havingBreak = true
  · simp only [hb, Bool.not_true, Bool.false_eq_true, if_false]
    by_cases hlt : s.breakMessageHistoryIndex - 1 < 0
    · rw [if_pos hlt]
      exact countdownInv_mono h hle
    · rw [if_neg hlt]
      cases hpe : getHistoryEntry (s.breakMessageHistoryIndex - 1) s with
      | none => exact countdownInv_mono h hle
      | some previousEntry =>
        simpa using
          countdownInv_applyBreakMessageEntry previousEntry settings now _
  · simp only [hb]
    simpa using countdownInv_mono h hle

theorem countdownInv_adjustActiveBreakDuration (deltaMs : Option Int)
    (now t : Int) (s : BreakTimerState) (h : countdownInv s t = true)
    (hle : t ≤ now) :
    countdownInv (adjustActiveBreakDuration deltaMs now s).1 now = true := by
  by_cases hb : s.havingBreak = true
  case neg =>
    unfold adjustActiveBreakDuration
    simp only [hb]
    simpa using countdownInv_mono h hle
  case pos =>
    by_cases hd : deltaMs.getD 0 = 0
    case pos =>
      unfold adjustActiveBreakDuration
      simp only [hb, Bool.not_true, Bool.false_eq_true, if_false, hd, if_true]
      exact countdownInv_mono h hle
    case neg =>
      have hdm : deltaMs = some (deltaMs.getD 0) := by
        cases deltaMs with
        | none => simp at hd
        | some d => rfl
      obtain ⟨h1, h2, hend, _⟩ :=
        adjustActiveBreakDuration_fields (deltaMs.getD 0) now s hb hd
      have hT : 1000 ≤ adjustedTotalOf (deltaMs.getD 0) s := le_max_left _ _
      have hX0 : 0 ≤ min (adjustedTotalOf (deltaMs.getD 0) s)
          (max 0 (adjustBaseOf (deltaMs.getD 0) now s + deltaMs.getD 0)) :=
        le_min (by omega) (le_max_left _ _)
      have hXT : min (adjustedTotalOf (deltaMs.getD 0) s)
          (max 0 (adjustBaseOf (deltaMs.getD 0) now s + deltaMs.getD 0)) ≤
            adjustedTotalOf (deltaMs.getD 0) s := min_le_left _ _
      rw [hdm, countdownInv_iff]
      refine ⟨adjustedTotalOf (deltaMs.getD 0) s, h1, by omega, ?_, ?_⟩
      · intro r hr
        rw [h2] at hr
        simp only [Option.some.injEq] at hr
        omega
      · intro e he
        rcases hend e he with hcase | hcase
        · omega
        · omega

theorem countdownInv_stepBreakOp (op : BreakOp) (now t : Int)
    (s : BreakTimerState) (h : countdownInv s t = true) (hle : t ≤ now) :
    countdownInv (stepBreakOp op now s) now = true := by
  cases op with
  | beginCountdown settings =>
    exact countdownInv_beginBreakCountdown settings now t s h hle
  | pause => exact countdownInv_pauseActiveBreak now t s h hle
  | resume => exact countdownInv_resumeActiveBreak now t s h hle
  | adjustDuration deltaMs =>
    exact countdownInv_adjustActiveBreakDuration deltaMs now t s h hle
  | nextMessage settings rand =>
    exact countdownInv_skipCurrentBreakMessage rand settings now t s h hle
  | prevMessage settings =>
    exact countdownInv_goToPreviousBreakMessage settings now t s h hle

theorem runBreakOps_countdownInv :
    ∀ (ops : List (BreakOp × Int)) (s : BreakTimerState) (t : Int),
      countdownInv s t = true → timesMono t ops = true →
      ∃ t2, countdownInv (runBreakOps ops s) t2 = true := by
  intro ops
  induction ops with
  | nil => intro s t h _; exact ⟨t, h⟩
  | cons p rest ih =>
    intro s t h hm
    obtain ⟨op, t1⟩ := p
    rw [timesMono] at hm
    simp only [Bool.and_eq_true, decide_eq_true_eq] at hm
    exact ih (stepBreakOp op t1 s) t1
      (countdownInv_stepBreakOp op t1 t s h hm.1) hm.2

/-- C2: starting from any break session state satisfying the countdown
invariant (as the state installed at break start does) and running any
chronological sequence of countdown operations — begin countdown, pause,
resume, adjust duration, message advance/rewind — whenever `remainingMs` and
`totalDurationMs` are both set in the resulting state, `remainingMs` lies in
the closed interval `[0, totalDurationMs]`; every operation preserves the
invariant. -/
theorem remaining_within_total_invariant (s0 : BreakTimerState) (t0 : Int)
    (ops : List (BreakOp × Int)) (hInv : countdownInv s0 t0 = true)
    (hMono : timesMono t0 ops = true) :
    ∀ r tot, (runBreakOps ops s0).currentBreakRemainingMs = some r →
      (runBreakOps ops s0).currentBreakTotalDurationMs = some tot →
      0 ≤ r ∧ r ≤ tot := by
  intro r tot hr htot
  obtain ⟨t2, h2⟩ := runBreakOps_countdownInv ops s0 t0 hInv hMono
  rw [countdownInv_iff] at h2
  obtain ⟨tot2, htot2, _, hrem, _⟩ := h2
  rw [htot] at htot2
  simp only [Option.some.injEq] at htot2
  subst htot2
  exact hrem r hr

/-- Witness for C2: pause at 1000, shrink by 200 seconds at 2000 (clamping
remaining to 0 and total to the 1000 ms floor), resume at 3000; the final
remaining time 0 lies within `[0, 1000]`. -/
theorem remaining_within_total_invariant_witness :
    (0 : Int) ≤ 0 ∧ (0 : Int) ≤ 1000 :=
  remaining_within_total_invariant sampleActiveBreak 0
    [(BreakOp.pause, 1000),
      (BreakOp.adjustDuration (some (-200000)), 2000),
      (BreakOp.resume, 3000)]
    (by decide) (by decide) 0 1000 (by decide) (by decide)

end BreakTimer
